import Mathlib

/-!
# tmkms-threshold: the cosigner, its watermark, its sessions and its peers

A shallow embedding of `internal/signer/LocalCosigner.go`, `Cosigner.go`,
`RemoteCosigners.go`, of one turn of the loop of `SignerServer.go` and of
`signBlock` of `TmSigner.go`.

* Go byte slices are lists of naturals (`Bytes`); `bytes.Equal` is equality of
  lists.  A slice whose being `nil` is tested by callers (`MaybeSig`, the stored
  `Signature`) is an `Option Bytes`, `none` standing for `nil`.
* `int64` and `int8` fields are integers: the code only compares and copies
  them, so no arithmetic can overflow.
* `map[HRSKey]HRSMeta` is an association list read through `Sessions.get`;
  `delete`, assignment and the range-and-delete loop are `Sessions.delete`,
  `Sessions.put` and `Sessions.deleteLess`.
* Every method runs under `lastSignStateMutex` from entry to return, so a call
  is one atomic transition: it takes the cosigner and returns the new cosigner
  together with the Go result pair (response, error); the error is an
  `Option String`, `none` standing for `nil`.
* The FROST library (`frost`, `party`, `helpers`, `state`, `sign`) is outside
  the repository.  It is a record of uninterpreted operations, `Engine`, each
  of which also receives the environment `ω` of the call (its randomness and
  its clock), so that two calls with equal arguments may differ in outcome.
-/

namespace Signer

/-- A Go byte slice. -/
abbrev Bytes := List Nat

/-! ## `Cosigner.go`: request and response records -/

structure CosignerStartSessionRequest where
  ID : Nat
  SignBytes : Bytes
  PartyIDs : Bytes
deriving DecidableEq, Repr

structure CosignerStartSessionResponse where
  Msg1Out : List Bytes
  MaybeSig : Option Bytes
deriving DecidableEq, Repr

structure CosignerEndSessionRequest where
  ID : Nat
  SignBytes : Bytes
  PartyIDs : Bytes
  Msg1Out : List Bytes
deriving DecidableEq, Repr

structure CosignerEndSessionResponse where
  Msg2Out : List Bytes
  MaybeSig : Option Bytes
deriving DecidableEq, Repr

structure CosignerSetSignatureRequest where
  ID : Nat
  SignBytes : Bytes
  Sig : Bytes
deriving DecidableEq, Repr

structure CosignerSetSignatureResponse where
  ID : Nat
deriving DecidableEq, Repr

/-! ## `LocalCosigner.go`: keys, sessions, the cosigner -/

structure HRSKey where
  Height : Int
  Round : Int
  Step : Int
deriving DecidableEq, Repr

/-- The method `HRSKey.Less`: true if the receiver is less than the other key. -/
def HRSKey.Less (hrsKey other : HRSKey) : Bool :=
  if hrsKey.Height < other.Height then true
  else if hrsKey.Height > other.Height then false
  else if hrsKey.Round < other.Round then true
  else if hrsKey.Round > other.Round then false
  else if hrsKey.Step < other.Step then true
  else false

/-- The record `HRSMeta`.  `state` and `output` are two pointers into the one
session object the engine owns and mutates; the embedding keeps that object as
the single abstract value `state`, from which the signature is read. -/
structure HRSMeta (σ : Type) where
  state : σ
  currentSignBytes : Bytes
deriving DecidableEq, Repr

/-- Modelled from the spec: the record `SignState` is declared in a file that is
not among the sources; its fields are those section 3 lists and those
`FinalSign` and `SetSignature` assign. -/
structure SignState where
  Height : Int
  Round : Int
  Step : Int
  Signature : Option Bytes
  SignBytes : Bytes
deriving DecidableEq, Repr

/-- The stored height, round and step as a key. -/
def SignState.hrs (lss : SignState) : HRSKey :=
  { Height := lss.Height, Round := lss.Round, Step := lss.Step }

/-- The error `CheckHRS` fails with on a regression attempt. -/
def errWatermarkRegressed : String := "WatermarkRegressed"

/-- Modelled from the spec: `SignState.CheckHRS` is defined in a file that is
not among the sources.  Section 4.1: it returns true iff the stored HRS equals
`(h, r, s)`, returns false if the stored HRS is strictly less, and fails if
`(h, r, s)` is strictly less than the stored HRS. -/
def SignState.CheckHRS (lss : SignState) (height round step : Int) : Except String Bool :=
  let k : HRSKey := { Height := height, Round := round, Step := step }
  if k.Less lss.hrs then .error errWatermarkRegressed
  else if lss.hrs = k then .ok true
  else .ok false

/-- Modelled from the spec: `UnpackHRS` and `SignState.OnlyDifferByTimestamp`
are defined in a file that is not among the sources, and the spec fixes no byte
layout for SignBytes (sections 3 and 4.1), so both are uninterpreted:
`UnpackHRS` parses height, round, step and chain id out of SignBytes or fails;
`OnlyDifferByTimestamp lss candidate` is the `ok` result of comparing the
candidate with the stored SignBytes outside the timestamp field. -/
structure Codec where
  UnpackHRS : Bytes → Except String (Int × Int × Int × String)
  OnlyDifferByTimestamp : SignState → Bytes → Bool

/-- The FROST library, external to the repository.  `σ` is the session object
behind `*state.State` and `*sign.Output`, `κ` the key-generation output, `π` a
`*party.Set`; `ω` is the environment of the call.
`PartyRoutine` returns the outgoing messages and the mutated session object. -/
structure Engine (σ κ π : Type) where
  NewSet : Nat → List Nat → Except String π
  NewSignState : Nat → π → κ → Bytes → Nat → Except String σ
  PartyRoutine : Nat → List Bytes → σ → Except String (List Bytes × σ)
  WaitForError : Nat → σ → Option String
  ToEd25519 : σ → Bytes

/-- The session table `map[HRSKey]HRSMeta`. -/
abbrev Sessions (σ : Type) := List (HRSKey × HRSMeta σ)

/-- The lookup `session, ok := sessions[key]`. -/
def Sessions.get {σ : Type} (sessions : Sessions σ) (key : HRSKey) : Option (HRSMeta σ) :=
  match sessions with
  | [] => none
  | (k, m) :: rest => if k = key then some m else Sessions.get rest key

/-- The statement `delete(sessions, key)`. -/
def Sessions.delete {σ : Type} (sessions : Sessions σ) (key : HRSKey) : Sessions σ :=
  sessions.filter (fun e => decide (e.1 ≠ key))

/-- The assignment `sessions[key] = meta`. -/
def Sessions.put {σ : Type} (sessions : Sessions σ) (key : HRSKey) (m : HRSMeta σ) :
    Sessions σ :=
  (key, m) :: Sessions.delete sessions key

/-- The loop `for existingKey := range sessions` that deletes every key
`Less` than `hrsKey`. -/
def Sessions.deleteLess {σ : Type} (sessions : Sessions σ) (hrsKey : HRSKey) : Sessions σ :=
  sessions.filter (fun e => !(e.1.Less hrsKey))

structure LocalCosigner (σ κ : Type) where
  kgOutput : κ
  lastSignState : SignState
  sessions : Sessions σ
  timeout : Nat
  chainId : String
deriving DecidableEq

/-- The function `getPartySet`: the party ids, one per byte, made into a set. -/
def getPartySet {σ κ π : Type} (E : Engine σ κ π) (ω : Nat) (parties_arr : Bytes) :
    Except String π :=
  E.NewSet ω (parties_arr.map id)

/-- The method `LocalCosigner.StartSession`. -/
def LocalCosigner.StartSession {σ κ π : Type} (C : Codec) (E : Engine σ κ π) (ω : Nat)
    (cosigner : LocalCosigner σ κ) (req : CosignerStartSessionRequest) :
    LocalCosigner σ κ × CosignerStartSessionResponse × Option String :=
  let res : CosignerStartSessionResponse := { Msg1Out := [], MaybeSig := none }
  let lss := cosigner.lastSignState
  match C.UnpackHRS req.SignBytes with
  | .error err => (cosigner, res, some err)
  | .ok (height, round, step, chainId) =>
    if chainId ≠ cosigner.chainId then (cosigner, res, some "wrong chain ID")
    else
      match lss.CheckHRS height round step with
      | .error err => (cosigner, res, some err)
      | .ok sameHRS =>
        if sameHRS ∧ req.SignBytes = lss.SignBytes then
          (cosigner, { res with MaybeSig := lss.Signature }, some "signed before")
        else if sameHRS ∧ ¬ C.OnlyDifferByTimestamp lss req.SignBytes then
          (cosigner, res, some "mismatched data")
        else
          let hrsKey : HRSKey := { Height := height, Round := round, Step := step }
          match cosigner.sessions.get hrsKey with
          | some _ => (cosigner, res, some "already being signed on")
          | none =>
            match getPartySet E ω req.PartyIDs with
            | .error err => (cosigner, res, some err)
            | .ok partySet =>
              match E.NewSignState ω partySet cosigner.kgOutput req.SignBytes
                  cosigner.timeout with
              | .error err => (cosigner, res, some err)
              | .ok state =>
                match E.PartyRoutine ω [] state with
                | .error err =>
                  ({ cosigner with
                      sessions := ((cosigner.sessions.put hrsKey
                        { state := state, currentSignBytes := req.SignBytes }).delete
                          hrsKey) },
                    res, some err)
                | .ok (msgs1, state1) =>
                  ({ cosigner with
                      sessions := cosigner.sessions.put hrsKey
                        { state := state1, currentSignBytes := req.SignBytes } },
                    { res with Msg1Out := msgs1 }, none)

/-- The method `LocalCosigner.EndSession`. -/
def LocalCosigner.EndSession {σ κ π : Type} (C : Codec) (E : Engine σ κ π) (ω : Nat)
    (cosigner : LocalCosigner σ κ) (req : CosignerEndSessionRequest) :
    LocalCosigner σ κ × CosignerEndSessionResponse × Option String :=
  let res : CosignerEndSessionResponse := { Msg2Out := [], MaybeSig := none }
  let lss := cosigner.lastSignState
  match C.UnpackHRS req.SignBytes with
  | .error err => (cosigner, res, some err)
  | .ok (height, round, step, chainId) =>
    if chainId ≠ cosigner.chainId then (cosigner, res, some "wrong chain ID")
    else
      match lss.CheckHRS height round step with
      | .error err => (cosigner, res, some err)
      | .ok sameHRS =>
        if sameHRS ∧ req.SignBytes = lss.SignBytes then
          (cosigner, { res with MaybeSig := lss.Signature }, some "signed before")
        else if sameHRS ∧ ¬ C.OnlyDifferByTimestamp lss req.SignBytes then
          (cosigner, res, some "mismatched data")
        else
          let hrsKey : HRSKey := { Height := height, Round := round, Step := step }
          match cosigner.sessions.get hrsKey with
          | none => (cosigner, res, some "invalid session")
          | some session =>
            if req.SignBytes ≠ session.currentSignBytes then
              (cosigner, res, some "wrong signing payload")
            else
              match E.PartyRoutine ω req.Msg1Out session.state with
              | .error err =>
                ({ cosigner with sessions := cosigner.sessions.delete hrsKey }, res, some err)
              | .ok (msgs2, state1) =>
                ({ cosigner with
                    sessions := cosigner.sessions.put hrsKey { session with state := state1 } },
                  { res with Msg2Out := msgs2 }, none)

/-- The method `LocalCosigner.FinalSign`; `Save()` rewrites the state file from
the fields just assigned and its result is discarded, so it changes nothing
here. -/
def LocalCosigner.FinalSign {σ κ π : Type} (E : Engine σ κ π) (ω : Nat)
    (cosigner : LocalCosigner σ κ) (hrsKey : HRSKey) (msg2out : List Bytes) :
    LocalCosigner σ κ × Option Bytes × Option String :=
  match cosigner.sessions.get hrsKey with
  | none => (cosigner, none, some "invalid session")
  | some session =>
    match E.PartyRoutine ω msg2out session.state with
    | .error err =>
      ({ cosigner with sessions := cosigner.sessions.delete hrsKey }, none, some err)
    | .ok (_, state1) =>
      match E.WaitForError ω state1 with
      | some err =>
        ({ cosigner with sessions := cosigner.sessions.delete hrsKey }, none, some err)
      | none =>
        let lss : SignState :=
          { Height := hrsKey.Height, Round := hrsKey.Round, Step := hrsKey.Step,
            Signature := some (E.ToEd25519 state1),
            SignBytes := session.currentSignBytes }
        ({ cosigner with
            lastSignState := lss,
            sessions := (cosigner.sessions.put hrsKey
              { session with state := state1 }).deleteLess hrsKey },
          lss.Signature, none)

/-- The method `LocalCosigner.SetSignature`. -/
def LocalCosigner.SetSignature {σ κ : Type} (C : Codec)
    (cosigner : LocalCosigner σ κ) (req : CosignerSetSignatureRequest) :
    LocalCosigner σ κ × CosignerSetSignatureResponse × Option String :=
  let res : CosignerSetSignatureResponse := { ID := req.ID }
  let lss := cosigner.lastSignState
  match C.UnpackHRS req.SignBytes with
  | .error err => (cosigner, res, some err)
  | .ok (height, round, step, chainId) =>
    if chainId ≠ cosigner.chainId then (cosigner, res, some "wrong chain ID")
    else
      match lss.CheckHRS height round step with
      | .error err => (cosigner, res, some err)
      | .ok sameHRS =>
        if sameHRS then
          if req.SignBytes = lss.SignBytes then (cosigner, res, some "signed before")
          else (cosigner, res, some "mismatched data")
        else if req.Sig.length ≠ 64 then (cosigner, res, some "incorrect signature")
        else
          let hrsKey : HRSKey := { Height := height, Round := round, Step := step }
          ({ cosigner with
              lastSignState :=
                { Height := height, Round := round, Step := step,
                  Signature := some req.Sig, SignBytes := req.SignBytes },
              sessions := cosigner.sessions.deleteLess hrsKey },
            res, none)

/-! ## Sequences of calls -/

/-- One call on the local cosigner, with the environment the engine sees. -/
inductive Call where
  | StartSession (ω : Nat) (req : CosignerStartSessionRequest)
  | EndSession (ω : Nat) (req : CosignerEndSessionRequest)
  | FinalSign (ω : Nat) (hrsKey : HRSKey) (msg2out : List Bytes)
  | SetSignature (req : CosignerSetSignatureRequest)
deriving DecidableEq, Repr

/-- The cosigner after one call. -/
def LocalCosigner.call {σ κ π : Type} (C : Codec) (E : Engine σ κ π)
    (cosigner : LocalCosigner σ κ) : Call → LocalCosigner σ κ
  | .StartSession ω req => (cosigner.StartSession C E ω req).1
  | .EndSession ω req => (cosigner.EndSession C E ω req).1
  | .FinalSign ω hrsKey msg2out => (cosigner.FinalSign E ω hrsKey msg2out).1
  | .SetSignature req => (cosigner.SetSignature C req).1

/-- The cosigner after a sequence of calls, first call first. -/
def LocalCosigner.calls {σ κ π : Type} (C : Codec) (E : Engine σ κ π)
    (cosigner : LocalCosigner σ κ) : List Call → LocalCosigner σ κ
  | [] => cosigner
  | c :: rest => LocalCosigner.calls C E (cosigner.call C E c) rest

/-! ## A sample instance, for evaluating the code on concrete inputs

SignBytes of the sample codec are `[height, round, step, timestamp, payload...]`
on the chain `"test"`.  The sample engine counts rounds in its session object;
`PartyRoutine` fails in environment `0`, `WaitForError` in environment `1`. -/

/-- The sample codec. -/
def sampleCodec : Codec where
  UnpackHRS b :=
    match b with
    | h :: r :: s :: _ :: _ => .ok (Int.ofNat h, Int.ofNat r, Int.ofNat s, "test")
    | _ => .error "cannot unpack"
  OnlyDifferByTimestamp lss candidate :=
    match lss.SignBytes, candidate with
    | h :: r :: s :: _ :: rest, h1 :: r1 :: s1 :: _ :: rest1 =>
      decide (h = h1 ∧ r = r1 ∧ s = s1 ∧ rest = rest1)
    | _, _ => false

/-- The sample engine. -/
def sampleEngine : Engine Nat Unit (List Nat) where
  NewSet _ ids := .ok ids
  NewSignState _ _ _ _ _ := .ok 0
  PartyRoutine ω _ st := if ω = 0 then .error "engine failure" else .ok ([[st]], st + 1)
  WaitForError ω _ := if ω = 1 then some "engine timeout" else none
  ToEd25519 st := List.replicate 64 st

/-- A sample cosigner on chain `"test"` with the given watermark and sessions. -/
def sampleCosigner (lss : SignState) (sessions : Sessions Nat) : LocalCosigner Nat Unit :=
  { kgOutput := (), lastSignState := lss, sessions := sessions, timeout := 5,
    chainId := "test" }

/-- The zero watermark of a first boot. -/
def zeroSignState : SignState :=
  { Height := 0, Round := 0, Step := 0, Signature := none, SignBytes := [] }

/-! ## `Cosigner.go`: parsing a request off the wire

A Go call that indexes a slice out of range panics.  A function in which that
could happen returns `Except String`: `.error` is the panic, `.ok` the value
the Go function returns. -/

/-- The interface `CosignerRequest`: one of the three request records. -/
inductive CosignerRequest where
  | StartSession (req : CosignerStartSessionRequest)
  | EndSession (req : CosignerEndSessionRequest)
  | SetSignature (req : CosignerSetSignatureRequest)
deriving DecidableEq, Repr

/-- The method `PartyId` of the three request records. -/
def CosignerRequest.PartyId : CosignerRequest → Nat
  | .StartSession req => req.ID
  | .EndSession req => req.ID
  | .SetSignature req => req.ID

/-- The run-time panic of an index or slice bound out of range. -/
def indexOutOfRange : String := "runtime error: index out of range"

/-- The function `MsgToRequest`; `none` is the `nil` interface value. -/
def MsgToRequest (msg : List Bytes) : Except String (Option CosignerRequest) :=
  if msg.length < 3 then .ok none
  else
    match msg[0]? with
    | none => .error indexOutOfRange
    | some f0 =>
      if f0.length < 2 then .ok none
      else
        match msg[1]?, msg[2]? with
        | some f1, some f2 =>
          if f1.length = 0 ∨ f2.length = 0 then .ok none
          else
            match f0[0]?, f0[1]? with
            | some roundt, some partyId =>
              if roundt = 0 then
                .ok (some (.StartSession { ID := partyId, SignBytes := f1, PartyIDs := f2 }))
              else if roundt = 1 then
                if 3 ≤ msg.length then
                  .ok (some (.EndSession
                    { ID := partyId, SignBytes := f1, PartyIDs := f2, Msg1Out := msg.drop 3 }))
                else .error indexOutOfRange
              else if roundt = 2 then
                .ok (some (.SetSignature { ID := partyId, SignBytes := f1, Sig := f2 }))
              else .ok none
            | _, _ => .error indexOutOfRange
        | _, _ => .error indexOutOfRange

/-- The conversion `[]byte(s)` of a string: its UTF-8 bytes. -/
def strBytes (s : String) : Bytes :=
  (s.data.flatMap String.utf8EncodeChar).map UInt8.toNat

/-! ## `RemoteCosigners.go`: the frames of the three requests -/

/-- The message `to_send` that `RemoteCosigners.StartSession` builds. -/
def startSessionFrames (req : CosignerStartSessionRequest) : List Bytes :=
  [[0, req.ID], req.SignBytes, req.PartyIDs]

/-- The message `to_send` that `RemoteCosigners.EndSession` builds. -/
def endSessionFrames (req : CosignerEndSessionRequest) : List Bytes :=
  [[1, req.ID], req.SignBytes, req.PartyIDs] ++ req.Msg1Out

/-- The message `to_send` that `RemoteCosigners.SetSignature` builds. -/
def setSignatureFrames (req : CosignerSetSignatureRequest) : List Bytes :=
  [[2, req.ID], req.SignBytes, req.Sig]

/-! ## `SignerServer.go`: one turn of the server loop -/

/-- The call `fmt.Sprintf("err: %v", err)`: a nil error prints as `<nil>`. -/
def sprintfErr : Option String → String
  | none => "err: <nil>"
  | some e => "err: " ++ e

/-- One iteration of `SignerServer.loop`: `msg` and `err` are what
`RecvMessageBytes` returned; the result is the local cosigner afterwards and the
messages passed to `SendMessage`, in order.  Logging and the error of
`SendMessage`, which is only logged, are left out.  In the type switch a `nil`
request would take the `default` case. -/
def SignerServer.loopTurn {σ κ π : Type} (C : Codec) (E : Engine σ κ π) (ω : Nat)
    (Local : LocalCosigner σ κ) (msg : List Bytes) (err : Option String) :
    Except String (LocalCosigner σ κ × List (List Bytes)) :=
  match MsgToRequest msg with
  | .error p => .error p
  | .ok req =>
    if err = none ∧ req ≠ none then
      match req with
      | some (.SetSignature v) =>
        let r := Local.SetSignature C v
        if r.2.2 ≠ none then
          .ok (r.1, [[strBytes "error", strBytes (sprintfErr r.2.2)]])
        else .ok (r.1, [[strBytes "ok", strBytes "ok"]])
      | some (.EndSession v) =>
        let r := Local.EndSession C E ω v
        match r.2.1.MaybeSig with
        | some sig => .ok (r.1, [[strBytes "signature", sig]])
        | none =>
          if r.2.2 ≠ none then
            .ok (r.1, [[strBytes "error", strBytes (sprintfErr r.2.2)]])
          else .ok (r.1, [r.2.1.Msg2Out])
      | some (.StartSession v) =>
        let r := Local.StartSession C E ω v
        match r.2.1.MaybeSig with
        | some sig => .ok (r.1, [[strBytes "signature", sig]])
        | none =>
          if r.2.2 ≠ none then
            .ok (r.1, [[strBytes "error", strBytes (sprintfErr r.2.2)]])
          else .ok (r.1, [r.2.1.Msg1Out])
      | none => .ok (Local, [[strBytes "error", strBytes "unknown request type"]])
    else .ok (Local, [[strBytes "error", strBytes (sprintfErr err)]])

/-! ## `RemoteCosigners.go`: the peer client

Sockets are numbered.  A `map[*zmq.Socket]byte` is a list of (socket, party id)
entries with distinct sockets.  Go visits the entries of a map in an
unspecified order: where the order can show in the result, `ResetParties`
takes it as the parameter `range`, which returns the entries of a map in the
order of that visit.  The network is the record `Net` of one call: what
`SendMessage` returns for each socket and message, and what `Poll` returns,
each polled item carrying the result of its `RecvMessageBytes`. -/

/-- A map from sockets to party ids. -/
abbrev SocketMap := List (Nat × Nat)

/-- The test `_, ok := m[socket]`. -/
def SocketMap.contains (m : SocketMap) (socket : Nat) : Bool :=
  m.any (fun e => decide (e.1 = socket))

/-- The statement `delete(m, socket)`. -/
def SocketMap.delete (m : SocketMap) (socket : Nat) : SocketMap :=
  m.filter (fun e => decide (e.1 ≠ socket))

/-- The assignment `m[socket] = v`. -/
def SocketMap.put (m : SocketMap) (socket v : Nat) : SocketMap :=
  (socket, v) :: SocketMap.delete m socket

structure RemoteCosigners where
  Clients : SocketMap
  ActiveClients : SocketMap
  SessionClients : SocketMap
  LocalID : Nat
  Threshold : Nat
  timeout : Nat
deriving DecidableEq, Repr

/-- One item of a `Poll` result with what `RecvMessageBytes` returns on it. -/
structure PollItem where
  Socket : Nat
  pollin : Bool
  err : Option String
  reply : List Bytes
deriving DecidableEq, Repr

/-- The network as one call sees it. -/
structure Net where
  SendMessage : Nat → List Bytes → Option String
  Poll : Except String (List PollItem)

/-- The second loop of `ResetParties`, over the active clients in the order of
the visit: `i` is the index, `parties_arr` and `session` what has been written
so far. -/
def pickParties (threshold : Nat) :
    List (Nat × Nat) → Nat → Bytes → SocketMap → Except String (Bytes × SocketMap)
  | [], _, parties_arr, session => .ok (parties_arr, session)
  | (socket, partyI) :: rest, i, parties_arr, session =>
    if i < parties_arr.length then
      if i + 1 = threshold then
        .ok (parties_arr.set i partyI, SocketMap.put session socket partyI)
      else
        pickParties threshold rest (i + 1) (parties_arr.set i partyI)
          (SocketMap.put session socket partyI)
    else .error indexOutOfRange

/-- The method `RemoteCosigners.ResetParties`.  The poll that drains stale
replies after rehydrating only reads from sockets and is left out. -/
def RemoteCosigners.ResetParties (range : SocketMap → SocketMap)
    (cosigners : RemoteCosigners) : Except String (RemoteCosigners × Bytes) :=
  let parties_arr : Bytes := List.replicate (cosigners.Threshold + 1) 0
  let active : SocketMap :=
    if cosigners.ActiveClients.length < cosigners.Threshold then
      (range cosigners.Clients).foldl (fun a e => SocketMap.put a e.1 e.2)
        cosigners.ActiveClients
    else cosigners.ActiveClients
  match pickParties cosigners.Threshold (range active) 0 parties_arr [] with
  | .error p => .error p
  | .ok (parties_arr1, session) =>
    if cosigners.Threshold < parties_arr1.length then
      .ok ({ cosigners with ActiveClients := active, SessionClients := session },
        parties_arr1.set cosigners.Threshold cosigners.LocalID)
    else .error indexOutOfRange

/-- The send loop of a round: every client in `targets` is sent `to_send`, and
a client whose send fails is deleted from the active clients. -/
def sendToAll (net : Net) (targets active : SocketMap) (to_send : List Bytes) : SocketMap :=
  targets.foldl
    (fun a client =>
      if net.SendMessage client.1 to_send ≠ none then SocketMap.delete a client.1 else a)
    active

/-- The variables the receive loop of a round updates. -/
structure Collected where
  ActiveClients : SocketMap
  MaybeSig : Option Bytes
  collected : Nat
  msgsOut : List Bytes
deriving DecidableEq, Repr

/-- The body of the receive loop of `StartSession` and `EndSession` for one
polled item. -/
def collectStep (session : SocketMap) (st : Collected) (item : PollItem) :
    Except String Collected :=
  if item.pollin then
    let ok := SocketMap.contains session item.Socket
    let st1 : Except String Collected :=
      if item.err = none then
        match item.reply with
        | [] => .error indexOutOfRange
        | reply0 :: _ =>
          if reply0 ≠ strBytes "error" ∧ ok = true then
            if reply0 = strBytes "signature" then
              match item.reply[1]? with
              | none => .error indexOutOfRange
              | some reply1 => .ok { st with MaybeSig := some reply1 }
            else
              .ok { st with collected := st.collected + 1, msgsOut := st.msgsOut ++ item.reply }
          else .ok st
      else .ok st
    match st1 with
    | .error p => .error p
    | .ok st2 =>
      if item.err ≠ none then
        .ok { st2 with ActiveClients := SocketMap.delete st2.ActiveClients item.Socket }
      else .ok st2
  else .ok st

/-- The receive loop of `StartSession` and `EndSession` over the polled items. -/
def collectLoop (session : SocketMap) : List PollItem → Collected → Except String Collected
  | [], st => .ok st
  | item :: rest, st =>
    match collectStep session st item with
    | .error p => .error p
    | .ok st1 => collectLoop session rest st1

/-- The method `RemoteCosigners.StartSession`. -/
def RemoteCosigners.StartSession (net : Net) (cosigners : RemoteCosigners)
    (req : CosignerStartSessionRequest) :
    Except String (RemoteCosigners × CosignerStartSessionResponse × Option String) :=
  let res : CosignerStartSessionResponse := { Msg1Out := [], MaybeSig := none }
  let to_send := startSessionFrames req
  let active := sendToAll net cosigners.SessionClients cosigners.ActiveClients to_send
  match net.Poll with
  | .error err => .ok ({ cosigners with ActiveClients := active }, res, some err)
  | .ok polled =>
    match collectLoop cosigners.SessionClients polled
        { ActiveClients := active, MaybeSig := none, collected := 1, msgsOut := [] } with
    | .error p => .error p
    | .ok st =>
      let res1 : CosignerStartSessionResponse :=
        { Msg1Out := st.msgsOut, MaybeSig := st.MaybeSig }
      let cosigners1 := { cosigners with ActiveClients := st.ActiveClients }
      if (st.MaybeSig.getD []).length = 64 then .ok (cosigners1, res1, some "signed before")
      else if st.collected < cosigners.Threshold then
        .ok (cosigners1, res1, some "not enough messages collected")
      else .ok (cosigners1, res1, none)

/-- The method `RemoteCosigners.EndSession`. -/
def RemoteCosigners.EndSession (net : Net) (cosigners : RemoteCosigners)
    (req : CosignerEndSessionRequest) :
    Except String (RemoteCosigners × CosignerEndSessionResponse × Option String) :=
  let res : CosignerEndSessionResponse := { Msg2Out := [], MaybeSig := none }
  let to_send := endSessionFrames req
  let active := sendToAll net cosigners.SessionClients cosigners.ActiveClients to_send
  match net.Poll with
  | .error err => .ok ({ cosigners with ActiveClients := active }, res, some err)
  | .ok polled =>
    match collectLoop cosigners.SessionClients polled
        { ActiveClients := active, MaybeSig := none, collected := 1, msgsOut := [] } with
    | .error p => .error p
    | .ok st =>
      let res1 : CosignerEndSessionResponse :=
        { Msg2Out := st.msgsOut, MaybeSig := st.MaybeSig }
      let cosigners1 := { cosigners with ActiveClients := st.ActiveClients }
      if (st.MaybeSig.getD []).length = 64 then .ok (cosigners1, res1, some "signed before")
      else if st.collected < cosigners.Threshold then
        .ok (cosigners1, res1, some "not enough messages collected")
      else .ok (cosigners1, res1, none)

/-- The method `RemoteCosigners.SetSignature`: the error of `Poll` is dropped,
and on it nothing is polled. -/
def RemoteCosigners.SetSignature (net : Net) (cosigners : RemoteCosigners)
    (req : CosignerSetSignatureRequest) :
    RemoteCosigners × CosignerSetSignatureResponse × Option String :=
  let to_send := setSignatureFrames req
  let active := sendToAll net cosigners.ActiveClients cosigners.ActiveClients to_send
  let polled : List PollItem :=
    match net.Poll with
    | .error _ => []
    | .ok items => items
  let active1 := polled.foldl
    (fun a item =>
      if item.pollin = true ∧ item.err ≠ none then SocketMap.delete a item.Socket else a)
    active
  ({ cosigners with ActiveClients := active1 }, { ID := req.ID }, none)

/-! ## `TmSigner.go`: signing a block -/

structure Block where
  Height : Int
  Round : Int
  Step : Int
  SignBytes : Bytes
  Timestamp : Nat
deriving DecidableEq, Repr

/-- The record `ThresholdValidator`; the public key, which `signBlock` does not
read, is left out. -/
structure ThresholdValidator (σ κ : Type) where
  threshold : Nat
  cosigner : LocalCosigner σ κ
  peers : RemoteCosigners

/-- The method `ThresholdValidator.signBlock`, returning the validator
afterwards and the Go results (signature, stamp, error).  `ω1`, `ω2`, `ω3` are
the engine's environments at the three local calls, `netStart`, `netEnd`,
`netSet` the network at the three peer calls.  The call of `FinalSign` is
written in the source with an extra `PartyIDs` argument that the method does
not have; it is passed the key and the round-2 messages. -/
def ThresholdValidator.signBlock {σ κ π : Type} (C : Codec) (E : Engine σ κ π)
    (range : SocketMap → SocketMap) (ω1 ω2 ω3 : Nat) (netStart netEnd netSet : Net)
    (pv : ThresholdValidator σ κ) (block : Block) :
    Except String (ThresholdValidator σ κ × Option Bytes × Nat × Option String) :=
  let stamp := block.Timestamp
  match pv.peers.ResetParties range with
  | .error p => .error p
  | .ok (peers1, partyIDs) =>
    let startReq : CosignerStartSessionRequest :=
      { ID := pv.peers.LocalID, SignBytes := block.SignBytes, PartyIDs := partyIDs }
    let r := pv.cosigner.StartSession C E ω1 startReq
    let pv1 : ThresholdValidator σ κ := { pv with cosigner := r.1, peers := peers1 }
    match r.2.1.MaybeSig with
    | some sig => .ok (pv1, some sig, stamp, none)
    | none =>
      match r.2.2 with
      | some err => .ok (pv1, none, stamp, some err)
      | none =>
        match peers1.StartSession netStart startReq with
        | .error p => .error p
        | .ok (peers2, otherResp, err) =>
          let pv2 : ThresholdValidator σ κ := { pv1 with peers := peers2 }
          match otherResp.MaybeSig with
          | some sig => .ok (pv2, some sig, stamp, none)
          | none =>
            match err with
            | some e => .ok (pv2, none, stamp, some e)
            | none =>
              let msgsOut1 := r.2.1.Msg1Out ++ otherResp.Msg1Out
              let endReq : CosignerEndSessionRequest :=
                { ID := pv.peers.LocalID, SignBytes := block.SignBytes,
                  PartyIDs := partyIDs, Msg1Out := msgsOut1 }
              let r2 := pv2.cosigner.EndSession C E ω2 endReq
              let pv3 : ThresholdValidator σ κ := { pv2 with cosigner := r2.1 }
              match r2.2.1.MaybeSig with
              | some sig => .ok (pv3, some sig, stamp, none)
              | none =>
                match r2.2.2 with
                | some e => .ok (pv3, none, stamp, some e)
                | none =>
                  match peers2.EndSession netEnd endReq with
                  | .error p => .error p
                  | .ok (peers3, otherResp2, err2) =>
                    let pv4 : ThresholdValidator σ κ := { pv3 with peers := peers3 }
                    match otherResp2.MaybeSig with
                    | some sig => .ok (pv4, some sig, stamp, none)
                    | none =>
                      match err2 with
                      | some e => .ok (pv4, none, stamp, some e)
                      | none =>
                        let msgsOut2 := r2.2.1.Msg2Out ++ otherResp2.Msg2Out
                        let hrsKey : HRSKey :=
                          { Height := block.Height, Round := block.Round, Step := block.Step }
                        let r3 := pv4.cosigner.FinalSign E ω3 hrsKey msgsOut2
                        let pv5 : ThresholdValidator σ κ := { pv4 with cosigner := r3.1 }
                        match r3.2.2 with
                        | some e => .ok (pv5, none, stamp, some e)
                        | none =>
                          let sigReq : CosignerSetSignatureRequest :=
                            { ID := pv.peers.LocalID, Sig := r3.2.1.getD [],
                              SignBytes := block.SignBytes }
                          let r4 := peers3.SetSignature netSet sigReq
                          .ok ({ pv5 with peers := r4.1 }, r3.2.1, stamp, none)

/-- A collected reply, in the words of the spec: received without error from a
session peer, with a first frame that is neither `error` nor `signature`. -/
def PollItem.isCollected (session : SocketMap) (item : PollItem) : Bool :=
  item.pollin && item.err.isNone && SocketMap.contains session item.Socket &&
    decide (item.reply.head? ≠ some (strBytes "error")) &&
    decide (item.reply.head? ≠ some (strBytes "signature"))

/-- The number of collected replies of a round. -/
def collectedReplies (session : SocketMap) (polled : List PollItem) : Nat :=
  (polled.filter (PollItem.isCollected session)).length

/-- A reply received without error from a session peer whose first frame is
`signature`. -/
def PollItem.isPeerSignature (session : SocketMap) (item : PollItem) : Bool :=
  item.pollin && item.err.isNone && SocketMap.contains session item.Socket &&
    decide (item.reply.head? = some (strBytes "signature"))

/-- A sample peer client: peers on sockets `1`, `2`, `3` with party ids `2`,
`3`, `4`, local id `1`, threshold `2`, all peers active. -/
def samplePeers : RemoteCosigners :=
  { Clients := [(1, 2), (2, 3), (3, 4)], ActiveClients := [(1, 2), (2, 3), (3, 4)],
    SessionClients := [], LocalID := 1, Threshold := 2, timeout := 5 }

/-- The sample peer client with sockets `1` and `2` chosen for the session. -/
def samplePeersInSession : RemoteCosigners :=
  { samplePeers with SessionClients := [(2, 3), (1, 2)] }

/-- The sample peer client after socket `3` has been dropped from the active
clients. -/
def samplePeersOneDropped : RemoteCosigners :=
  { samplePeers with ActiveClients := [(1, 2), (2, 3)] }

/-- A round message from the session peer on socket `2`. -/
def sampleRoundReply : PollItem :=
  { Socket := 2, pollin := true, err := none, reply := [[7]] }

/-- A signature reply from the session peer on socket `1` with a 64-byte
second frame. -/
def sampleSignatureReply : PollItem :=
  { Socket := 1, pollin := true, err := none,
    reply := [strBytes "signature", List.replicate 64 9] }

/-- A signature reply from the session peer on socket `1` with a three-byte
second frame. -/
def sampleShortSignatureReply : PollItem :=
  { Socket := 1, pollin := true, err := none, reply := [strBytes "signature", [1, 2, 3]] }

/-- A polled item whose receive failed: an error and no frames, from the peer
on socket `3`, which is polled but not in the session. -/
def sampleFailedReceive : PollItem :=
  { Socket := 3, pollin := true, err := some "resource temporarily unavailable", reply := [] }

/-- An error reply from the session peer on socket `1`. -/
def sampleErrorReply : PollItem :=
  { Socket := 1, pollin := true, err := none,
    reply := [strBytes "error", strBytes "err: invalid session"] }

/-- A network on which every send succeeds and the poll returns the given
items. -/
def sampleNet (polled : List PollItem) : Net :=
  { SendMessage := fun _ _ => none, Poll := .ok polled }

/-- Every session key is at or above the stored watermark HRS. -/
def LocalCosigner.sessionsAbove {σ κ : Type} (cosigner : LocalCosigner σ κ) : Bool :=
  cosigner.sessions.all (fun e => !(e.1.Less cosigner.lastSignState.hrs))

/-- Sample SignBytes at HRS `(10, 0, 1)`, timestamp `100`, payload `7`. -/
def sampleVote : Bytes := [10, 0, 1, 100, 7]

/-- The sample vote with timestamp `101`: a timestamp-only variant. -/
def sampleVoteLater : Bytes := [10, 0, 1, 101, 7]

/-- SignBytes at the same HRS `(10, 0, 1)` with payload `8`: a different vote. -/
def sampleOtherVote : Bytes := [10, 0, 1, 100, 8]

/-- SignBytes at the higher HRS `(11, 0, 1)`. -/
def sampleNextVote : Bytes := [11, 0, 1, 100, 7]

/-- The key of the sample vote. -/
def sampleKey : HRSKey := ⟨10, 0, 1⟩

/-- A first-boot cosigner that has run `StartSession` and `EndSession` for the
sample vote: one live session at `(10, 0, 1)`, watermark still zero. -/
def afterTwoRounds : LocalCosigner Nat Unit :=
  (sampleCosigner zeroSignState []).calls sampleCodec sampleEngine
    [.StartSession 5 ⟨1, sampleVote, [1, 2]⟩, .EndSession 5 ⟨1, sampleVote, [1, 2], [[0]]⟩]

/-- The cosigner `afterTwoRounds` once a peer's `SetSignature` for the other
vote at the same HRS has been served. -/
def afterPeerSignature : LocalCosigner Nat Unit :=
  (afterTwoRounds.SetSignature sampleCodec ⟨2, sampleOtherVote, List.replicate 64 9⟩).1

/-- The cosigner `afterTwoRounds` once `FinalSign` has run for the sample key. -/
def afterFinalSign : LocalCosigner Nat Unit :=
  (afterTwoRounds.FinalSign sampleEngine 5 sampleKey [[1]]).1

/-- The session at `key` is gone, every other session is as it was, and so is
the watermark. -/
def LocalCosigner.droppedOnly {σ κ : Type} (before after : LocalCosigner σ κ)
    (key : HRSKey) : Prop :=
  after.sessions.get key = none ∧
    (∀ k, k ≠ key → after.sessions.get k = before.sessions.get k) ∧
    after.lastSignState = before.lastSignState

/-! ## The order on keys -/

theorem HRSKey.Less_iff (a b : HRSKey) :
    a.Less b = true ↔
      a.Height < b.Height ∨
        (a.Height = b.Height ∧ (a.Round < b.Round ∨ (a.Round = b.Round ∧ a.Step < b.Step))) := by
  unfold HRSKey.Less
  split_ifs <;> simp <;> omega

theorem HRSKey.Less_eq_false_iff (a b : HRSKey) :
    a.Less b = false ↔
      b.Height < a.Height ∨
        (a.Height = b.Height ∧ (b.Round < a.Round ∨ (a.Round = b.Round ∧ b.Step ≤ a.Step))) := by
  rw [← Bool.not_eq_true, HRSKey.Less_iff]
  omega

theorem HRSKey.eq_iff (a b : HRSKey) :
    a = b ↔ a.Height = b.Height ∧ a.Round = b.Round ∧ a.Step = b.Step := by
  cases a; cases b; simp

theorem HRSKey.Less_irrefl (a : HRSKey) : a.Less a = false := by
  rw [HRSKey.Less_eq_false_iff]; omega

theorem HRSKey.not_Less_trans {a b c : HRSKey} (hab : a.Less b = false)
    (hbc : b.Less c = false) : a.Less c = false := by
  rw [HRSKey.Less_eq_false_iff] at *; omega

theorem HRSKey.not_Less_of_Less {a b : HRSKey} (h : a.Less b = true) : b.Less a = false := by
  rw [HRSKey.Less_iff] at h; rw [HRSKey.Less_eq_false_iff]; omega

/-! ## The session table -/

theorem Sessions.get_filter_key {σ : Type} (p : HRSKey → Bool) (s : Sessions σ) (k : HRSKey) :
    Sessions.get (List.filter (fun e => p e.1) s) k = if p k then Sessions.get s k else none := by
  induction s with
  | nil => simp [Sessions.get]
  | cons e rest ih =>
    obtain ⟨k1, m1⟩ := e
    by_cases hp : p k1 = true
    · by_cases hk : k1 = k
      · subst hk; simp [List.filter, hp, Sessions.get]
      · simp [List.filter, hp, Sessions.get, hk, ih]
    · by_cases hk : k1 = k
      · subst hk; simp [List.filter, hp, Sessions.get, ih]
      · simp [List.filter, hp, Sessions.get, hk, ih]

theorem Sessions.get_delete {σ : Type} (s : Sessions σ) (key k : HRSKey) :
    Sessions.get (Sessions.delete s key) k = if k = key then none else Sessions.get s k := by
  unfold Sessions.delete
  rw [Sessions.get_filter_key (fun x => decide (x ≠ key)) s k]
  by_cases h : k = key <;> simp [h]

theorem Sessions.get_put {σ : Type} (s : Sessions σ) (key k : HRSKey) (m : HRSMeta σ) :
    Sessions.get (Sessions.put s key m) k = if k = key then some m else Sessions.get s k := by
  unfold Sessions.put
  by_cases h : k = key
  · subst h; simp [Sessions.get]
  · have h1 : ¬ key = k := fun e => h e.symm
    simp [Sessions.get, h, h1, Sessions.get_delete]

theorem Sessions.get_deleteLess {σ : Type} (s : Sessions σ) (key k : HRSKey) :
    Sessions.get (Sessions.deleteLess s key) k =
      if k.Less key = true then none else Sessions.get s k := by
  unfold Sessions.deleteLess
  rw [Sessions.get_filter_key (fun x => !(x.Less key)) s k]
  by_cases h : k.Less key = true <;> simp [h]

theorem Sessions.mem_delete {σ : Type} (s : Sessions σ) (key : HRSKey)
    (e : HRSKey × HRSMeta σ) : e ∈ Sessions.delete s key ↔ e ∈ s ∧ e.1 ≠ key := by
  simp [Sessions.delete]

theorem Sessions.mem_put {σ : Type} (s : Sessions σ) (key : HRSKey) (m : HRSMeta σ)
    (e : HRSKey × HRSMeta σ) :
    e ∈ Sessions.put s key m ↔ e = (key, m) ∨ (e ∈ s ∧ e.1 ≠ key) := by
  simp [Sessions.put, Sessions.delete]

theorem Sessions.mem_deleteLess {σ : Type} (s : Sessions σ) (key : HRSKey)
    (e : HRSKey × HRSMeta σ) :
    e ∈ Sessions.deleteLess s key ↔ e ∈ s ∧ e.1.Less key = false := by
  simp [Sessions.deleteLess]

theorem Sessions.mem_of_get {σ : Type} {s : Sessions σ} {k : HRSKey} {m : HRSMeta σ}
    (h : Sessions.get s k = some m) : (k, m) ∈ s := by
  induction s with
  | nil => simp [Sessions.get] at h
  | cons e rest ih =>
    obtain ⟨k1, m1⟩ := e
    by_cases hk : k1 = k
    · subst hk; simp [Sessions.get] at h; simp [h]
    · simp [Sessions.get, hk] at h; exact List.mem_cons_of_mem _ (ih h)

theorem Sessions.delete_eq_self {σ : Type} {s : Sessions σ} {k : HRSKey}
    (h : Sessions.get s k = none) : Sessions.delete s k = s := by
  induction s with
  | nil => rfl
  | cons e rest ih =>
    obtain ⟨k1, m1⟩ := e
    by_cases hk : k1 = k
    · subst hk; simp [Sessions.get] at h
    · simp [Sessions.get, hk] at h
      have := ih h
      simp only [Sessions.delete] at this ⊢
      rw [List.filter_cons_of_pos (by simpa using hk), this]

theorem LocalCosigner.sessionsAbove_iff {σ κ : Type} (c : LocalCosigner σ κ) :
    c.sessionsAbove = true ↔ ∀ e ∈ c.sessions, e.1.Less c.lastSignState.hrs = false := by
  simp [LocalCosigner.sessionsAbove, List.all_eq_true]

/-! ## The watermark check -/

theorem SignState.CheckHRS_error {lss : SignState} {h r s : Int} {err : String}
    (hc : lss.CheckHRS h r s = .error err) :
    HRSKey.Less ⟨h, r, s⟩ lss.hrs = true ∧ err = errWatermarkRegressed := by
  unfold SignState.CheckHRS at hc
  simp only [] at hc
  split_ifs at hc with h1 h2
  · simp only [Except.error.injEq] at hc; exact ⟨h1, hc.symm⟩

theorem SignState.CheckHRS_ok {lss : SignState} {h r s : Int} {b : Bool}
    (hc : lss.CheckHRS h r s = .ok b) :
    HRSKey.Less ⟨h, r, s⟩ lss.hrs = false ∧ (b = true ↔ lss.hrs = ⟨h, r, s⟩) := by
  unfold SignState.CheckHRS at hc
  simp only [] at hc
  split_ifs at hc with h1 h2
  · simp only [Except.ok.injEq] at hc; subst hc
    exact ⟨by simpa using h1, by simpa using h2⟩
  · simp only [Except.ok.injEq] at hc; subst hc
    exact ⟨by simpa using h1, by simpa using h2⟩

theorem SignState.CheckHRS_of_Less {lss : SignState} {h r s : Int}
    (hl : HRSKey.Less ⟨h, r, s⟩ lss.hrs = true) :
    lss.CheckHRS h r s = .error errWatermarkRegressed := by
  simp [SignState.CheckHRS, hl]

theorem SignState.CheckHRS_of_eq {lss : SignState} {h r s : Int}
    (he : lss.hrs = ⟨h, r, s⟩) : lss.CheckHRS h r s = .ok true := by
  simp [SignState.CheckHRS, he, HRSKey.Less_irrefl]

theorem SignState.CheckHRS_of_above {lss : SignState} {h r s : Int}
    (hl : lss.hrs.Less ⟨h, r, s⟩ = true) : lss.CheckHRS h r s = .ok false := by
  have h1 := HRSKey.not_Less_of_Less hl
  have h2 : lss.hrs ≠ ⟨h, r, s⟩ := by
    intro e; rw [e, HRSKey.Less_irrefl] at hl; exact Bool.false_ne_true hl
  simp [SignState.CheckHRS, h1, h2]

/-- A request that passes the watermark checks of `StartSession` and
`EndSession` (its HRS is above the stored HRS, or equal with a timestamp-only
difference) gets `sameHRS` from `CheckHRS` and falls through both returns of
the `sameHRS` branch. -/
theorem passes_watermark {C : Codec} {lss : SignState} {h r s : Int} {signBytes : Bytes}
    (hpass : lss.hrs.Less ⟨h, r, s⟩ = true ∨
      (lss.hrs = ⟨h, r, s⟩ ∧ signBytes ≠ lss.SignBytes ∧
        C.OnlyDifferByTimestamp lss signBytes = true)) :
    ∃ sameHRS, lss.CheckHRS h r s = .ok sameHRS ∧
      ¬ (sameHRS = true ∧ signBytes = lss.SignBytes) ∧
      ¬ (sameHRS = true ∧ ¬ C.OnlyDifferByTimestamp lss signBytes = true) := by
  rcases hpass with hl | ⟨he, hne, hts⟩
  · exact ⟨false, SignState.CheckHRS_of_above hl, by simp, by simp⟩
  · exact ⟨true, SignState.CheckHRS_of_eq he, by simp [hne], by simp [hts]⟩

/-! ## What each call does to the watermark and the table -/

theorem FinalSign_cases {σ κ π : Type} (E : Engine σ κ π) (ω : Nat) (c : LocalCosigner σ κ)
    (K : HRSKey) (msg2 : List Bytes) :
    (∃ err, c.FinalSign E ω K msg2 = (c, none, some err)) ∨
      (∃ err, c.FinalSign E ω K msg2
          = ({ c with sessions := c.sessions.delete K }, none, some err)) ∨
      (∃ m out st1, c.sessions.get K = some m ∧
        E.PartyRoutine ω msg2 m.state = .ok (out, st1) ∧ E.WaitForError ω st1 = none ∧
        c.FinalSign E ω K msg2
          = ({ c with
                lastSignState := ⟨K.Height, K.Round, K.Step, some (E.ToEd25519 st1),
                  m.currentSignBytes⟩,
                sessions := (c.sessions.put K { m with state := st1 }).deleteLess K },
              some (E.ToEd25519 st1), none)) := by
  cases hg : c.sessions.get K with
  | none => exact Or.inl ⟨"invalid session", by simp [LocalCosigner.FinalSign, hg]⟩
  | some m =>
    cases hp : E.PartyRoutine ω msg2 m.state with
    | error err => exact Or.inr (Or.inl ⟨err, by simp [LocalCosigner.FinalSign, hg, hp]⟩)
    | ok v =>
      obtain ⟨out, st1⟩ := v
      cases hw : E.WaitForError ω st1 with
      | some err => exact Or.inr (Or.inl ⟨err, by simp [LocalCosigner.FinalSign, hg, hp, hw]⟩)
      | none =>
        exact Or.inr (Or.inr ⟨m, out, st1, rfl, hp, hw,
          by simp [LocalCosigner.FinalSign, hg, hp, hw]⟩)

theorem SetSignature_cases {σ κ : Type} (C : Codec) (c : LocalCosigner σ κ)
    (req : CosignerSetSignatureRequest) :
    (∃ err, c.SetSignature C req = (c, ⟨req.ID⟩, some err)) ∨
      (∃ h r s, C.UnpackHRS req.SignBytes = .ok (h, r, s, c.chainId) ∧
        c.lastSignState.hrs.Less ⟨h, r, s⟩ = true ∧ req.Sig.length = 64 ∧
        c.SetSignature C req
          = ({ c with
                lastSignState := ⟨h, r, s, some req.Sig, req.SignBytes⟩,
                sessions := c.sessions.deleteLess ⟨h, r, s⟩ },
              ⟨req.ID⟩, none)) := by
  cases hu : C.UnpackHRS req.SignBytes with
  | error err => exact Or.inl ⟨err, by simp [LocalCosigner.SetSignature, hu]⟩
  | ok v =>
    obtain ⟨h, r, s, chain⟩ := v
    by_cases hch : chain = c.chainId
    · subst hch
      cases hc : c.lastSignState.CheckHRS h r s with
      | error err => exact Or.inl ⟨err, by simp [LocalCosigner.SetSignature, hu, hc]⟩
      | ok b =>
        obtain ⟨hnl, hb⟩ := SignState.CheckHRS_ok hc
        cases b with
        | true =>
          by_cases hbytes : req.SignBytes = c.lastSignState.SignBytes
          · exact Or.inl ⟨"signed before",
              by simp only [LocalCosigner.SetSignature, hu, hc]; simp [hbytes]⟩
          · exact Or.inl ⟨"mismatched data",
              by simp only [LocalCosigner.SetSignature, hu, hc]; simp [hbytes]⟩
        | false =>
          by_cases hlen : req.Sig.length = 64
          · refine Or.inr ⟨h, r, s, rfl, ?_, hlen, by simp [LocalCosigner.SetSignature, hu, hc, hlen]⟩
            have hne : c.lastSignState.hrs ≠ ⟨h, r, s⟩ := fun e => by simpa using hb.2 e
            rw [HRSKey.Less_eq_false_iff] at hnl
            rw [HRSKey.Less_iff]
            rw [Ne, HRSKey.eq_iff] at hne
            simp only [] at hnl hne ⊢
            omega
          · exact Or.inl ⟨"incorrect signature",
              by simp [LocalCosigner.SetSignature, hu, hc, hlen]⟩
    · exact Or.inl ⟨"wrong chain ID", by simp [LocalCosigner.SetSignature, hu, hch]⟩

theorem StartSession_cases {σ κ π : Type} (C : Codec) (E : Engine σ κ π) (ω : Nat)
    (c : LocalCosigner σ κ) (req : CosignerStartSessionRequest) :
    (c.StartSession C E ω req).1 = c ∨
      (∃ h r s m, HRSKey.Less ⟨h, r, s⟩ c.lastSignState.hrs = false ∧
        c.sessions.get ⟨h, r, s⟩ = none ∧
        (c.StartSession C E ω req).1 = { c with sessions := c.sessions.put ⟨h, r, s⟩ m }) := by
  cases hu : C.UnpackHRS req.SignBytes with
  | error err => exact Or.inl (by simp [LocalCosigner.StartSession, hu])
  | ok v =>
    obtain ⟨h, r, s, chain⟩ := v
    by_cases hch : chain = c.chainId
    · subst hch
      cases hc : c.lastSignState.CheckHRS h r s with
      | error err => exact Or.inl (by simp [LocalCosigner.StartSession, hu, hc])
      | ok b =>
        obtain ⟨hnl, -⟩ := SignState.CheckHRS_ok hc
        unfold LocalCosigner.StartSession
        simp only [hu, hc]
        rw [if_neg (not_not.mpr rfl)]
        by_cases h1 : b = true ∧ req.SignBytes = c.lastSignState.SignBytes
        · rw [if_pos h1]; exact Or.inl rfl
        · rw [if_neg h1]
          by_cases h2 : b = true ∧ ¬ C.OnlyDifferByTimestamp c.lastSignState req.SignBytes = true
          · rw [if_pos h2]; exact Or.inl rfl
          · rw [if_neg h2]
            cases hg : c.sessions.get ⟨h, r, s⟩ with
            | some m => exact Or.inl rfl
            | none =>
              simp only []
              cases hps : getPartySet E ω req.PartyIDs with
              | error err => exact Or.inl rfl
              | ok ps =>
                simp only []
                cases hns : E.NewSignState ω ps c.kgOutput req.SignBytes c.timeout with
                | error err => exact Or.inl rfl
                | ok st =>
                  simp only []
                  cases hpr : E.PartyRoutine ω [] st with
                  | error err =>
                    refine Or.inl ?_
                    have hd : (c.sessions.put ⟨h, r, s⟩ ⟨st, req.SignBytes⟩).delete ⟨h, r, s⟩
                        = c.sessions := by
                      simp only [Sessions.put, Sessions.delete, List.filter]
                      simp only [ne_eq, not_true_eq_false, decide_False, List.filter_filter,
                        Bool.and_self]
                      exact Sessions.delete_eq_self hg
                    simp only [hd]
                  | ok v =>
                    obtain ⟨msgs1, st1⟩ := v
                    exact Or.inr ⟨h, r, s, ⟨st1, req.SignBytes⟩, hnl, hg, rfl⟩
    · exact Or.inl (by simp [LocalCosigner.StartSession, hu, hch])

theorem EndSession_cases {σ κ π : Type} (C : Codec) (E : Engine σ κ π) (ω : Nat)
    (c : LocalCosigner σ κ) (req : CosignerEndSessionRequest) :
    (c.EndSession C E ω req).1 = c ∨
      (∃ h r s m, HRSKey.Less ⟨h, r, s⟩ c.lastSignState.hrs = false ∧
        c.sessions.get ⟨h, r, s⟩ = some m ∧
        ((c.EndSession C E ω req).1 = { c with sessions := c.sessions.delete ⟨h, r, s⟩ } ∨
          ∃ st1, (c.EndSession C E ω req).1
            = { c with sessions := c.sessions.put ⟨h, r, s⟩ { m with state := st1 } })) := by
  cases hu : C.UnpackHRS req.SignBytes with
  | error err => exact Or.inl (by simp [LocalCosigner.EndSession, hu])
  | ok v =>
    obtain ⟨h, r, s, chain⟩ := v
    by_cases hch : chain = c.chainId
    · subst hch
      cases hc : c.lastSignState.CheckHRS h r s with
      | error err => exact Or.inl (by simp [LocalCosigner.EndSession, hu, hc])
      | ok b =>
        obtain ⟨hnl, -⟩ := SignState.CheckHRS_ok hc
        unfold LocalCosigner.EndSession
        simp only [hu, hc]
        rw [if_neg (not_not.mpr rfl)]
        by_cases h1 : b = true ∧ req.SignBytes = c.lastSignState.SignBytes
        · rw [if_pos h1]; exact Or.inl rfl
        · rw [if_neg h1]
          by_cases h2 : b = true ∧ ¬ C.OnlyDifferByTimestamp c.lastSignState req.SignBytes = true
          · rw [if_pos h2]; exact Or.inl rfl
          · rw [if_neg h2]
            cases hg : c.sessions.get ⟨h, r, s⟩ with
            | none => exact Or.inl rfl
            | some m =>
              simp only []
              by_cases hb : req.SignBytes ≠ m.currentSignBytes
              · rw [if_pos hb]; exact Or.inl rfl
              · rw [if_neg hb]
                cases hpr : E.PartyRoutine ω req.Msg1Out m.state with
                | error err => exact Or.inr ⟨h, r, s, m, hnl, hg, Or.inl rfl⟩
                | ok v =>
                  obtain ⟨msgs2, st1⟩ := v
                  exact Or.inr ⟨h, r, s, m, hnl, hg, Or.inr ⟨st1, rfl⟩⟩
    · exact Or.inl (by simp [LocalCosigner.EndSession, hu, hch])

/-! ## The watermark over sequences of calls -/

theorem SignState.hrs_mk (K : HRSKey) (sig : Option Bytes) (b : Bytes) :
    SignState.hrs ⟨K.Height, K.Round, K.Step, sig, b⟩ = K := by
  cases K; rfl

/-- One call keeps every session key at or above the watermark and does not
lower the watermark. -/
theorem call_keeps_above {σ κ π : Type} (C : Codec) (E : Engine σ κ π)
    (c : LocalCosigner σ κ) (call : Call) (hinv : c.sessionsAbove = true) :
    (c.call C E call).sessionsAbove = true ∧
      (c.call C E call).lastSignState.hrs.Less c.lastSignState.hrs = false := by
  rw [LocalCosigner.sessionsAbove_iff] at hinv ⊢
  cases call with
  | StartSession ω req =>
    simp only [LocalCosigner.call]
    rcases StartSession_cases C E ω c req with h | ⟨h, r, s, m, hnl, -, h⟩
    · rw [h]; exact ⟨hinv, HRSKey.Less_irrefl _⟩
    · rw [h]
      refine ⟨?_, HRSKey.Less_irrefl _⟩
      intro e he
      rcases (Sessions.mem_put _ _ _ _).1 he with rfl | ⟨he, -⟩
      · exact hnl
      · exact hinv e he
  | EndSession ω req =>
    simp only [LocalCosigner.call]
    rcases EndSession_cases C E ω c req with h | ⟨h, r, s, m, hnl, -, h | ⟨st1, h⟩⟩
    · rw [h]; exact ⟨hinv, HRSKey.Less_irrefl _⟩
    · rw [h]
      refine ⟨?_, HRSKey.Less_irrefl _⟩
      intro e he
      exact hinv e ((Sessions.mem_delete _ _ _).1 he).1
    · rw [h]
      refine ⟨?_, HRSKey.Less_irrefl _⟩
      intro e he
      rcases (Sessions.mem_put _ _ _ _).1 he with rfl | ⟨he, -⟩
      · exact hnl
      · exact hinv e he
  | FinalSign ω K msg2 =>
    simp only [LocalCosigner.call]
    rcases FinalSign_cases E ω c K msg2 with ⟨err, h⟩ | ⟨err, h⟩ | ⟨m, out, st1, hg, -, -, h⟩
    · rw [h]; exact ⟨hinv, HRSKey.Less_irrefl _⟩
    · rw [h]
      refine ⟨?_, HRSKey.Less_irrefl _⟩
      intro e he
      exact hinv e ((Sessions.mem_delete _ _ _).1 he).1
    · rw [h]
      simp only [SignState.hrs_mk]
      refine ⟨?_, hinv _ (Sessions.mem_of_get hg)⟩
      intro e he
      exact ((Sessions.mem_deleteLess _ _ _).1 he).2
  | SetSignature req =>
    simp only [LocalCosigner.call]
    rcases SetSignature_cases C c req with ⟨err, h⟩ | ⟨h, r, s, -, hl, -, h⟩
    · rw [h]; exact ⟨hinv, HRSKey.Less_irrefl _⟩
    · rw [h]
      refine ⟨?_, HRSKey.not_Less_of_Less hl⟩
      intro e he
      exact ((Sessions.mem_deleteLess _ _ _).1 he).2

/-- A sequence of calls keeps every session key at or above the watermark and
does not lower the watermark. -/
theorem calls_keep_above {σ κ π : Type} (C : Codec) (E : Engine σ κ π)
    (calls : List Call) (c : LocalCosigner σ κ) (hinv : c.sessionsAbove = true) :
    (c.calls C E calls).sessionsAbove = true ∧
      (c.calls C E calls).lastSignState.hrs.Less c.lastSignState.hrs = false := by
  induction calls generalizing c with
  | nil => exact ⟨hinv, HRSKey.Less_irrefl _⟩
  | cons call rest ih =>
    obtain ⟨h1, h2⟩ := call_keeps_above C E c call hinv
    obtain ⟨h3, h4⟩ := ih (c.call C E call) h1
    exact ⟨h3, HRSKey.not_Less_trans h4 h2⟩

theorem sessionsAbove_of_empty {σ κ : Type} (c : LocalCosigner σ κ) (h0 : c.sessions = []) :
    c.sessionsAbove = true := by
  simp [LocalCosigner.sessionsAbove, h0]

/-- C1: from an empty session table, after any sequence of calls the next call
never lowers the stored watermark HRS; and once `FinalSign` has returned a
signature at `K`, no `FinalSign` after any further calls returns a signature at
a key `Less` than `K`. -/
theorem watermark_never_decreases {σ κ π : Type} (C : Codec) (E : Engine σ κ π)
    (c0 : LocalCosigner σ κ) (h0 : c0.sessions = [])
    (calls1 : List Call) (next : Call)
    (ω : Nat) (K : HRSKey) (msg2 : List Bytes) (sig : Bytes)
    (calls2 : List Call) (ω1 : Nat) (K1 : HRSKey) (msg21 : List Bytes) (sig1 : Bytes) :
    ((c0.calls C E calls1).call C E next).lastSignState.hrs.Less
        (c0.calls C E calls1).lastSignState.hrs = false ∧
      (((c0.calls C E calls1).FinalSign E ω K msg2).2 = (some sig, none) →
        ((((c0.calls C E calls1).FinalSign E ω K msg2).1.calls C E calls2).FinalSign
            E ω1 K1 msg21).2 = (some sig1, none) →
        K1.Less K = false) := by
  have hinv1 := (calls_keep_above C E calls1 c0 (sessionsAbove_of_empty c0 h0)).1
  refine ⟨(call_keeps_above C E _ next hinv1).2, ?_⟩
  intro hfirst hlater
  have hstep := call_keeps_above C E _ (Call.FinalSign ω K msg2) hinv1
  simp only [LocalCosigner.call] at hstep
  have hK : ((c0.calls C E calls1).FinalSign E ω K msg2).1.lastSignState.hrs = K := by
    rcases FinalSign_cases E ω (c0.calls C E calls1) K msg2 with
      ⟨err, h⟩ | ⟨err, h⟩ | ⟨m, out, st1, -, -, -, h⟩
    · rw [h] at hfirst; simp at hfirst
    · rw [h] at hfirst; simp at hfirst
    · rw [h]; exact SignState.hrs_mk _ _ _
  obtain ⟨hinv2, hmono2⟩ := calls_keep_above C E calls2 _ hstep.1
  rw [hK] at hmono2
  have hstep2 := call_keeps_above C E _ (Call.FinalSign ω1 K1 msg21) hinv2
  simp only [LocalCosigner.call] at hstep2
  have hK1 : ((((c0.calls C E calls1).FinalSign E ω K msg2).1.calls C E calls2).FinalSign
      E ω1 K1 msg21).1.lastSignState.hrs = K1 := by
    rcases FinalSign_cases E ω1 (((c0.calls C E calls1).FinalSign E ω K msg2).1.calls C E calls2)
      K1 msg21 with ⟨err, h⟩ | ⟨err, h⟩ | ⟨m, out, st1, -, -, -, h⟩
    · rw [h] at hlater; simp at hlater
    · rw [h] at hlater; simp at hlater
    · rw [h]; exact SignState.hrs_mk _ _ _
  rw [hK1] at hstep2
  exact HRSKey.not_Less_trans hstep2.2 hmono2

/-- C1, at a concrete input: `FinalSign` at `(10, 0, 1)`, then a full ceremony
at `(11, 0, 1)`. -/
theorem watermark_never_decreases_witness :
    (sampleCosigner zeroSignState []).sessions = [] ∧
      (afterTwoRounds.FinalSign sampleEngine 5 sampleKey [[1]]).2
        = (some (List.replicate 64 3), none) ∧
      HRSKey.Less ⟨11, 0, 1⟩ sampleKey = false :=
  ⟨rfl, rfl,
    (watermark_never_decreases sampleCodec sampleEngine (sampleCosigner zeroSignState []) rfl
      [.StartSession 5 ⟨1, sampleVote, [1, 2]⟩, .EndSession 5 ⟨1, sampleVote, [1, 2], [[0]]⟩]
      (.SetSignature ⟨2, sampleNextVote, List.replicate 64 9⟩)
      5 sampleKey [[1]] (List.replicate 64 3)
      [.StartSession 5 ⟨1, sampleNextVote, [1, 2]⟩,
        .EndSession 5 ⟨1, sampleNextVote, [1, 2], [[0]]⟩]
      5 ⟨11, 0, 1⟩ [[1]] (List.replicate 64 3)).2 rfl rfl⟩

/-- C2, evaluated at the failing input: a session for the sample vote is live
at `(10, 0, 1)` when a peer's `SetSignature` records the other vote at the same
HRS; `FinalSign` then succeeds at `(10, 0, 1)` and signs the session's
SignBytes, which are neither equal to the stored SignBytes nor a timestamp-only
variant of them. -/
theorem FinalSign_signs_other_bytes_at_recorded_hrs :
    afterPeerSignature.lastSignState.hrs = sampleKey ∧
      afterPeerSignature.lastSignState.SignBytes = sampleOtherVote ∧
      afterPeerSignature.sessions.get sampleKey = some ⟨2, sampleVote⟩ ∧
      (afterPeerSignature.FinalSign sampleEngine 5 sampleKey [[1]]).2
        = (some (List.replicate 64 3), none) ∧
      (afterPeerSignature.FinalSign sampleEngine 5 sampleKey [[1]]).1.lastSignState.SignBytes
        = sampleVote ∧
      sampleVote ≠ sampleOtherVote ∧
      sampleCodec.OnlyDifferByTimestamp afterPeerSignature.lastSignState sampleVote = false := by
  refine ⟨rfl, rfl, rfl, rfl, rfl, by decide, rfl⟩

/-- A successful `FinalSign` at `K` leaves the session at `K` itself in the
table, for every engine: its loop deletes only the keys `Less` than `K`. -/
theorem FinalSign_leaves_own_session {σ κ π : Type} (E : Engine σ κ π) (ω : Nat)
    (c : LocalCosigner σ κ) (K : HRSKey) (msg2 : List Bytes)
    (hfinal : (c.FinalSign E ω K msg2).2.2 = none) :
    ∃ m, (c.FinalSign E ω K msg2).1.sessions.get K = some m := by
  rcases FinalSign_cases E ω c K msg2 with ⟨err, e⟩ | ⟨err, e⟩ | ⟨m, out, st1, -, -, -, e⟩
  · rw [e] at hfinal; simp at hfinal
  · rw [e] at hfinal; simp at hfinal
  · refine ⟨{ m with state := st1 }, ?_⟩
    rw [e]
    simp only [Sessions.get_deleteLess, HRSKey.Less_irrefl, Sessions.get_put]
    simp

/-- C5, evaluated at the failing input: after `FinalSign` has succeeded at
`(10, 0, 1)` for the sample vote, a `StartSession` for its timestamp-only
variant passes the watermark checks and then fails with
`already being signed on`, because the finished session is still in the table;
no session is opened and no round-1 message is returned. -/
theorem timestamp_retry_blocked_by_finished_session :
    (afterTwoRounds.FinalSign sampleEngine 5 sampleKey [[1]]).2
        = (some (List.replicate 64 3), none) ∧
      afterFinalSign.lastSignState
        = ⟨10, 0, 1, some (List.replicate 64 3), sampleVote⟩ ∧
      sampleCodec.UnpackHRS sampleVoteLater = .ok (10, 0, 1, "test") ∧
      sampleVoteLater ≠ sampleVote ∧
      sampleCodec.OnlyDifferByTimestamp afterFinalSign.lastSignState sampleVoteLater = true ∧
      afterFinalSign.sessions.get sampleKey = some ⟨3, sampleVote⟩ ∧
      afterFinalSign.StartSession sampleCodec sampleEngine 5 ⟨1, sampleVoteLater, [1, 2]⟩
        = (afterFinalSign, ⟨[], none⟩, some "already being signed on") := by
  refine ⟨rfl, rfl, rfl, by decide, rfl, rfl, rfl⟩

/-! ## Rejections that leave the cosigner as it was -/

/-- C3: a request whose SignBytes parse, with the cosigner's chain id, to an HRS
strictly less than the stored HRS makes `StartSession`, `EndSession` and
`SetSignature` each fail with the regression error of `CheckHRS`, and the
cosigner (watermark and session table) is returned unchanged. -/
theorem regression_rejected {σ κ π : Type} (C : Codec) (E : Engine σ κ π) (ω : Nat)
    (c : LocalCosigner σ κ) (signBytes : Bytes) (h r s : Int) (id : Nat) (partyIDs : Bytes)
    (msg1 : List Bytes) (sig : Bytes)
    (hparse : C.UnpackHRS signBytes = .ok (h, r, s, c.chainId))
    (hless : HRSKey.Less ⟨h, r, s⟩ c.lastSignState.hrs = true) :
    c.StartSession C E ω ⟨id, signBytes, partyIDs⟩
        = (c, ⟨[], none⟩, some errWatermarkRegressed) ∧
      c.EndSession C E ω ⟨id, signBytes, partyIDs, msg1⟩
        = (c, ⟨[], none⟩, some errWatermarkRegressed) ∧
      c.SetSignature C ⟨id, signBytes, sig⟩ = (c, ⟨id⟩, some errWatermarkRegressed) := by
  have hc := SignState.CheckHRS_of_Less hless
  refine ⟨?_, ?_, ?_⟩
  · simp [LocalCosigner.StartSession, hparse, hc]
  · simp [LocalCosigner.EndSession, hparse, hc]
  · simp [LocalCosigner.SetSignature, hparse, hc]

/-- C3, at a concrete input: watermark `(10, 0, 1)`, request at `(9, 0, 1)`. -/
theorem regression_rejected_witness :
    sampleCodec.UnpackHRS [9, 0, 1, 100, 7] = .ok (9, 0, 1, "test") ∧
      HRSKey.Less ⟨9, 0, 1⟩ (SignState.hrs ⟨10, 0, 1, some [5], [10, 0, 1, 100, 7]⟩) = true ∧
      (sampleCosigner ⟨10, 0, 1, some [5], [10, 0, 1, 100, 7]⟩ []).SetSignature sampleCodec
          ⟨2, [9, 0, 1, 100, 7], List.replicate 64 3⟩
        = (sampleCosigner ⟨10, 0, 1, some [5], [10, 0, 1, 100, 7]⟩ [], ⟨2⟩,
            some errWatermarkRegressed) :=
  ⟨rfl, rfl,
    (regression_rejected sampleCodec sampleEngine 5
      (sampleCosigner ⟨10, 0, 1, some [5], [10, 0, 1, 100, 7]⟩ []) [9, 0, 1, 100, 7] 9 0 1 2
      [1, 2] [] (List.replicate 64 3) rfl rfl).2.2⟩

/-- C4: when the chain id matches, the request HRS equals the stored HRS and the
request SignBytes equal the stored SignBytes, `StartSession` and `EndSession`
return the stored signature as `MaybeSig` together with the error
`signed before`, return no round messages, and return the cosigner unchanged. -/
theorem signed_before_returns_stored {σ κ π : Type} (C : Codec) (E : Engine σ κ π) (ω : Nat)
    (c : LocalCosigner σ κ) (signBytes : Bytes) (h r s : Int) (id : Nat) (partyIDs : Bytes)
    (msg1 : List Bytes)
    (hparse : C.UnpackHRS signBytes = .ok (h, r, s, c.chainId))
    (hsame : c.lastSignState.hrs = ⟨h, r, s⟩)
    (hbytes : signBytes = c.lastSignState.SignBytes) :
    c.StartSession C E ω ⟨id, signBytes, partyIDs⟩
        = (c, ⟨[], c.lastSignState.Signature⟩, some "signed before") ∧
      c.EndSession C E ω ⟨id, signBytes, partyIDs, msg1⟩
        = (c, ⟨[], c.lastSignState.Signature⟩, some "signed before") := by
  have hc := SignState.CheckHRS_of_eq hsame
  subst hbytes
  refine ⟨?_, ?_⟩
  · simp [LocalCosigner.StartSession, hparse, hc]
  · simp [LocalCosigner.EndSession, hparse, hc]

/-- C4, at a concrete input: the stored SignBytes are presented again. -/
theorem signed_before_returns_stored_witness :
    sampleCodec.UnpackHRS [10, 0, 1, 100, 7] = .ok (10, 0, 1, "test") ∧
      (sampleCosigner ⟨10, 0, 1, some [5], [10, 0, 1, 100, 7]⟩ []).StartSession sampleCodec
          sampleEngine 5 ⟨1, [10, 0, 1, 100, 7], [1, 2]⟩
        = (sampleCosigner ⟨10, 0, 1, some [5], [10, 0, 1, 100, 7]⟩ [], ⟨[], some [5]⟩,
            some "signed before") :=
  ⟨rfl,
    (signed_before_returns_stored sampleCodec sampleEngine 5
      (sampleCosigner ⟨10, 0, 1, some [5], [10, 0, 1, 100, 7]⟩ []) [10, 0, 1, 100, 7] 10 0 1 1
      [1, 2] [] rfl rfl rfl).1⟩

/-- C6: a `StartSession` request that passes the chain and watermark checks (HRS
above the stored HRS, or equal with a timestamp-only difference) while the
session table already has an entry for the parsed HRS fails with
`already being signed on`, returns no `Msg1Out`, and returns the cosigner (the
existing session, the rest of the table and the watermark) unchanged. -/
theorem live_session_not_reopened {σ κ π : Type} (C : Codec) (E : Engine σ κ π) (ω : Nat)
    (c : LocalCosigner σ κ) (req : CosignerStartSessionRequest) (h r s : Int)
    (m : HRSMeta σ)
    (hparse : C.UnpackHRS req.SignBytes = .ok (h, r, s, c.chainId))
    (hpass : c.lastSignState.hrs.Less ⟨h, r, s⟩ = true ∨
      (c.lastSignState.hrs = ⟨h, r, s⟩ ∧ req.SignBytes ≠ c.lastSignState.SignBytes ∧
        C.OnlyDifferByTimestamp c.lastSignState req.SignBytes = true))
    (hlive : c.sessions.get ⟨h, r, s⟩ = some m) :
    c.StartSession C E ω req = (c, ⟨[], none⟩, some "already being signed on") := by
  obtain ⟨b, hc, h1, h2⟩ := passes_watermark hpass
  simp only [LocalCosigner.StartSession, hparse, hc, hlive, h1, h2, ne_eq, not_true_eq_false,
    if_false]

/-- C6, at a concrete input: a second identical `StartSession` while the
session opened by the first is live. -/
theorem live_session_not_reopened_witness :
    sampleCodec.UnpackHRS [10, 0, 1, 100, 7] = .ok (10, 0, 1, "test") ∧
      Sessions.get [((⟨10, 0, 1⟩ : HRSKey), (⟨1, [10, 0, 1, 100, 7]⟩ : HRSMeta Nat))] ⟨10, 0, 1⟩
        = some ⟨1, [10, 0, 1, 100, 7]⟩ ∧
      (sampleCosigner zeroSignState [(⟨10, 0, 1⟩, ⟨1, [10, 0, 1, 100, 7]⟩)]).StartSession
          sampleCodec sampleEngine 5 ⟨1, [10, 0, 1, 100, 7], [1, 2]⟩
        = (sampleCosigner zeroSignState [(⟨10, 0, 1⟩, ⟨1, [10, 0, 1, 100, 7]⟩)], ⟨[], none⟩,
            some "already being signed on") :=
  ⟨rfl, rfl,
    live_session_not_reopened sampleCodec sampleEngine 5
      (sampleCosigner zeroSignState [(⟨10, 0, 1⟩, ⟨1, [10, 0, 1, 100, 7]⟩)])
      ⟨1, [10, 0, 1, 100, 7], [1, 2]⟩ 10 0 1 ⟨1, [10, 0, 1, 100, 7]⟩ rfl (Or.inl rfl) rfl⟩

/-- C9: an `EndSession` request that passes the chain and watermark checks and
whose HRS has a session in the table, but whose SignBytes are not byte-equal to
the session's `currentSignBytes` (a timestamp-only difference included: no
exemption is consulted), fails with `wrong signing payload`; the result is the
same for every engine and environment (the engine is not advanced) and the
cosigner, the session included, is returned unchanged. -/
theorem wrong_payload_rejected {σ κ π : Type} (C : Codec) (E : Engine σ κ π) (ω : Nat)
    (c : LocalCosigner σ κ) (req : CosignerEndSessionRequest) (h r s : Int)
    (m : HRSMeta σ)
    (hparse : C.UnpackHRS req.SignBytes = .ok (h, r, s, c.chainId))
    (hpass : c.lastSignState.hrs.Less ⟨h, r, s⟩ = true ∨
      (c.lastSignState.hrs = ⟨h, r, s⟩ ∧ req.SignBytes ≠ c.lastSignState.SignBytes ∧
        C.OnlyDifferByTimestamp c.lastSignState req.SignBytes = true))
    (hlive : c.sessions.get ⟨h, r, s⟩ = some m)
    (hdiff : req.SignBytes ≠ m.currentSignBytes) :
    c.EndSession C E ω req = (c, ⟨[], none⟩, some "wrong signing payload") ∧
      (c.EndSession C E ω req).1.sessions.get ⟨h, r, s⟩ = some m := by
  obtain ⟨b, hc, h1, h2⟩ := passes_watermark hpass
  have hres : c.EndSession C E ω req = (c, ⟨[], none⟩, some "wrong signing payload") := by
    simp only [LocalCosigner.EndSession, hparse, hc, hlive, h1, h2, hdiff, ne_eq,
      not_true_eq_false, not_false_eq_true, if_false, if_true]
  exact ⟨hres, by rw [hres]; exact hlive⟩

/-- C9, at a concrete input: the session was opened with timestamp `100`, the
`EndSession` request carries timestamp `101` and is otherwise identical. -/
theorem wrong_payload_rejected_witness :
    sampleCodec.UnpackHRS [10, 0, 1, 101, 7] = .ok (10, 0, 1, "test") ∧
      ([10, 0, 1, 101, 7] : Bytes) ≠ [10, 0, 1, 100, 7] ∧
      (sampleCosigner zeroSignState [(⟨10, 0, 1⟩, ⟨1, [10, 0, 1, 100, 7]⟩)]).EndSession
          sampleCodec sampleEngine 5 ⟨1, [10, 0, 1, 101, 7], [1, 2], [[0]]⟩
        = (sampleCosigner zeroSignState [(⟨10, 0, 1⟩, ⟨1, [10, 0, 1, 100, 7]⟩)], ⟨[], none⟩,
            some "wrong signing payload") :=
  ⟨rfl, by decide,
    (wrong_payload_rejected sampleCodec sampleEngine 5
      (sampleCosigner zeroSignState [(⟨10, 0, 1⟩, ⟨1, [10, 0, 1, 100, 7]⟩)])
      ⟨1, [10, 0, 1, 101, 7], [1, 2], [[0]]⟩ 10 0 1 ⟨1, [10, 0, 1, 100, 7]⟩ rfl (Or.inl rfl) rfl
      (by decide)).1⟩

/-! ## Advancing the watermark -/

/-- C7: after a successful `FinalSign` at key `K`, and after a successful
`SetSignature` whose SignBytes parse to HRS `(h, r, s)`, the session table has
no entry whose key is `Less` than that key. -/
theorem no_lower_session_after_advance {σ κ π : Type} (C : Codec) (E : Engine σ κ π)
    (ω : Nat) (c : LocalCosigner σ κ) (K : HRSKey) (msg2 : List Bytes)
    (c1 : LocalCosigner σ κ) (req : CosignerSetSignatureRequest) (h r s : Int) (chain : String)
    (hfinal : (c.FinalSign E ω K msg2).2.2 = none)
    (hparse : C.UnpackHRS req.SignBytes = .ok (h, r, s, chain))
    (hset : (c1.SetSignature C req).2.2 = none) :
    (∀ e ∈ (c.FinalSign E ω K msg2).1.sessions, e.1.Less K = false) ∧
      (∀ k, k.Less K = true → (c.FinalSign E ω K msg2).1.sessions.get k = none) ∧
      (∀ e ∈ (c1.SetSignature C req).1.sessions, e.1.Less ⟨h, r, s⟩ = false) ∧
      (∀ k, k.Less ⟨h, r, s⟩ = true → (c1.SetSignature C req).1.sessions.get k = none) := by
  have hF : (c.FinalSign E ω K msg2).1.sessions
      = Sessions.deleteLess (c.FinalSign E ω K msg2).1.sessions K ∨
      ∃ t, (c.FinalSign E ω K msg2).1.sessions = Sessions.deleteLess t K := by
    rcases FinalSign_cases E ω c K msg2 with ⟨err, e⟩ | ⟨err, e⟩ | ⟨m, out, st1, -, -, -, e⟩
    · rw [e] at hfinal; simp at hfinal
    · rw [e] at hfinal; simp at hfinal
    · exact Or.inr ⟨_, by rw [e]⟩
  have hS : ∃ t, (c1.SetSignature C req).1.sessions = Sessions.deleteLess t ⟨h, r, s⟩ := by
    rcases SetSignature_cases C c1 req with ⟨err, e⟩ | ⟨h1, r1, s1, hp, -, -, e⟩
    · rw [e] at hset; simp at hset
    · rw [hparse] at hp
      simp only [Except.ok.injEq, Prod.mk.injEq] at hp
      obtain ⟨rfl, rfl, rfl, -⟩ := hp
      exact ⟨_, by rw [e]⟩
  have hFt : ∃ t, (c.FinalSign E ω K msg2).1.sessions = Sessions.deleteLess t K := by
    rcases hF with e | e
    · exact ⟨_, e⟩
    · exact e
  obtain ⟨t, et⟩ := hFt
  obtain ⟨u, eu⟩ := hS
  refine ⟨?_, ?_, ?_, ?_⟩
  · intro e he; rw [et] at he; exact ((Sessions.mem_deleteLess _ _ _).1 he).2
  · intro k hk; rw [et, Sessions.get_deleteLess, if_pos hk]
  · intro e he; rw [eu] at he; exact ((Sessions.mem_deleteLess _ _ _).1 he).2
  · intro k hk; rw [eu, Sessions.get_deleteLess, if_pos hk]

/-- C7, at a concrete input: sessions at `(9, 0, 1)` and `(10, 0, 1)`;
`FinalSign` at `(10, 0, 1)` and `SetSignature` at `(11, 0, 1)` both succeed. -/
theorem no_lower_session_after_advance_witness :
    ((sampleCosigner zeroSignState
          [(⟨9, 0, 1⟩, ⟨1, [9, 0, 1, 100, 7]⟩), (sampleKey, ⟨2, sampleVote⟩)]).FinalSign
        sampleEngine 5 sampleKey [[1]]).2.2 = none ∧
      sampleCodec.UnpackHRS sampleNextVote = .ok (11, 0, 1, "test") ∧
      (afterTwoRounds.SetSignature sampleCodec ⟨2, sampleNextVote, List.replicate 64 9⟩).2.2
        = none ∧
      ((sampleCosigner zeroSignState
          [(⟨9, 0, 1⟩, ⟨1, [9, 0, 1, 100, 7]⟩), (sampleKey, ⟨2, sampleVote⟩)]).FinalSign
        sampleEngine 5 sampleKey [[1]]).1.sessions.get ⟨9, 0, 1⟩ = none ∧
      (afterTwoRounds.SetSignature sampleCodec
        ⟨2, sampleNextVote, List.replicate 64 9⟩).1.sessions.get sampleKey = none :=
  ⟨rfl, rfl, rfl,
    (no_lower_session_after_advance sampleCodec sampleEngine 5
      (sampleCosigner zeroSignState
        [(⟨9, 0, 1⟩, ⟨1, [9, 0, 1, 100, 7]⟩), (sampleKey, ⟨2, sampleVote⟩)])
      sampleKey [[1]] afterTwoRounds ⟨2, sampleNextVote, List.replicate 64 9⟩ 11 0 1 "test"
      rfl rfl rfl).2.1 ⟨9, 0, 1⟩ rfl,
    (no_lower_session_after_advance sampleCodec sampleEngine 5
      (sampleCosigner zeroSignState
        [(⟨9, 0, 1⟩, ⟨1, [9, 0, 1, 100, 7]⟩), (sampleKey, ⟨2, sampleVote⟩)])
      sampleKey [[1]] afterTwoRounds ⟨2, sampleNextVote, List.replicate 64 9⟩ 11 0 1 "test"
      rfl rfl rfl).2.2.2 sampleKey rfl⟩

/-- C8 as stated fails: the length clause does not hold for every HRS.  With
the watermark at `(10, 0, 1)`, a request at `(9, 0, 1)` with a three-byte Sig
parses with the cosigner's chain id and fails with the regression error, and a
request at `(10, 0, 1)` with the stored SignBytes and a three-byte Sig fails
with `signed before`; neither fails with `incorrect signature`. -/
theorem short_signature_below_watermark :
    sampleCodec.UnpackHRS [9, 0, 1, 100, 7] = .ok (9, 0, 1, "test") ∧
      ([1, 2, 3] : Bytes).length ≠ 64 ∧
      ((sampleCosigner ⟨10, 0, 1, some [5], sampleVote⟩ []).SetSignature sampleCodec
          ⟨2, [9, 0, 1, 100, 7], [1, 2, 3]⟩).2.2 = some errWatermarkRegressed ∧
      ((sampleCosigner ⟨10, 0, 1, some [5], sampleVote⟩ []).SetSignature sampleCodec
          ⟨2, sampleVote, [1, 2, 3]⟩).2.2 = some "signed before" ∧
      some errWatermarkRegressed ≠ some "incorrect signature" ∧
      (some "signed before" : Option String) ≠ some "incorrect signature" := by
  refine ⟨rfl, by decide, rfl, rfl, by decide, by decide⟩

/-- C8, amended: for a `SetSignature` request whose SignBytes parse with the
cosigner's chain id, the call succeeds iff the parsed HRS is strictly greater
than the stored HRS and the signature is 64 bytes long.  At the stored HRS it
fails with `signed before` when the bytes are equal and `mismatched data`
otherwise; strictly above the stored HRS with a length other than 64 it fails
with `incorrect signature`.  On success the watermark is exactly
`(h, r, s, req.SignBytes, req.Sig)`; on every failure the cosigner (watermark
and session table) is unchanged. -/
theorem SetSignature_contract {σ κ : Type} (C : Codec) (c : LocalCosigner σ κ)
    (req : CosignerSetSignatureRequest) (h r s : Int)
    (hparse : C.UnpackHRS req.SignBytes = .ok (h, r, s, c.chainId)) :
    ((c.SetSignature C req).2.2 = none ↔
        (c.lastSignState.hrs.Less ⟨h, r, s⟩ = true ∧ req.Sig.length = 64)) ∧
      (c.lastSignState.hrs = ⟨h, r, s⟩ →
        (c.SetSignature C req).2.2
          = some (if req.SignBytes = c.lastSignState.SignBytes then "signed before"
              else "mismatched data")) ∧
      (c.lastSignState.hrs.Less ⟨h, r, s⟩ = true → req.Sig.length ≠ 64 →
        (c.SetSignature C req).2.2 = some "incorrect signature") ∧
      ((c.SetSignature C req).2.2 = none →
        (c.SetSignature C req).1.lastSignState = ⟨h, r, s, some req.Sig, req.SignBytes⟩) ∧
      ((c.SetSignature C req).2.2 ≠ none → (c.SetSignature C req).1 = c) := by
  have hsame : c.lastSignState.hrs = ⟨h, r, s⟩ →
      c.SetSignature C req
        = (c, ⟨req.ID⟩, some (if req.SignBytes = c.lastSignState.SignBytes then "signed before"
            else "mismatched data")) := by
    intro he
    unfold LocalCosigner.SetSignature
    simp only [hparse, SignState.CheckHRS_of_eq he]
    rw [if_neg (not_not.mpr rfl), if_pos trivial]
    split_ifs <;> rfl
  have habove : c.lastSignState.hrs.Less ⟨h, r, s⟩ = true →
      c.SetSignature C req
        = if req.Sig.length ≠ 64 then (c, ⟨req.ID⟩, some "incorrect signature")
          else ({ c with
                  lastSignState := ⟨h, r, s, some req.Sig, req.SignBytes⟩,
                  sessions := c.sessions.deleteLess ⟨h, r, s⟩ }, ⟨req.ID⟩, none) := by
    intro hl
    unfold LocalCosigner.SetSignature
    simp only [hparse, SignState.CheckHRS_of_above hl]
    rw [if_neg (not_not.mpr rfl), if_neg (by simp)]
  rcases SetSignature_cases C c req with ⟨err, e⟩ | ⟨h1, r1, s1, hp, hl, hlen, e⟩
  · refine ⟨⟨fun hn => ?_, fun hh => ?_⟩, fun he => ?_, fun hl hlen => ?_, fun hn => ?_,
      fun _ => ?_⟩
    · rw [e] at hn; simp at hn
    · rw [habove hh.1, if_neg (not_not.mpr hh.2)] at e
      simp at e
    · rw [hsame he]
    · rw [habove hl, if_pos hlen]
    · rw [e] at hn; simp at hn
    · rw [e]
  · rw [hparse] at hp
    simp only [Except.ok.injEq, Prod.mk.injEq] at hp
    obtain ⟨rfl, rfl, rfl, -⟩ := hp
    refine ⟨⟨fun _ => ⟨hl, hlen⟩, fun _ => by rw [e]⟩, fun he => ?_, fun _ hne => ?_,
      fun _ => by rw [e], fun hn => ?_⟩
    · rw [he, HRSKey.Less_irrefl] at hl; exact absurd hl (by simp)
    · exact absurd hlen hne
    · rw [e] at hn; simp at hn

/-- C8 amended, at a concrete input: watermark zero, a 64-byte signature for
the sample vote is accepted and recorded. -/
theorem SetSignature_contract_witness :
    sampleCodec.UnpackHRS sampleVote = .ok (10, 0, 1, "test") ∧
      ((sampleCosigner zeroSignState []).SetSignature sampleCodec
          ⟨2, sampleVote, List.replicate 64 9⟩).2.2 = none ∧
      ((sampleCosigner zeroSignState []).SetSignature sampleCodec
          ⟨2, sampleVote, List.replicate 64 9⟩).1.lastSignState
        = ⟨10, 0, 1, some (List.replicate 64 9), sampleVote⟩ :=
  ⟨rfl, rfl,
    (SetSignature_contract sampleCodec (sampleCosigner zeroSignState [])
      ⟨2, sampleVote, List.replicate 64 9⟩ 10 0 1 rfl).2.2.2.1 rfl⟩

/-! ## Engine failures -/

/-- C10: whenever the engine step returns an error, the call returns that
error, the session table has no entry for the HRS key afterwards, every other
session is as it was, and the watermark is unchanged.  The four cases are
independent: `PartyRoutine` in `StartSession`, in `EndSession` and in
`FinalSign`, and `WaitForError` in `FinalSign`. -/
theorem engine_failure_drops_session {σ κ π : Type} (C : Codec) (E : Engine σ κ π) (ω : Nat) :
    (∀ (c : LocalCosigner σ κ) (req : CosignerStartSessionRequest) (h r s : Int)
        (partySet : π) (state : σ) (err : String),
        C.UnpackHRS req.SignBytes = .ok (h, r, s, c.chainId) →
        (c.lastSignState.hrs.Less ⟨h, r, s⟩ = true ∨
          (c.lastSignState.hrs = ⟨h, r, s⟩ ∧ req.SignBytes ≠ c.lastSignState.SignBytes ∧
            C.OnlyDifferByTimestamp c.lastSignState req.SignBytes = true)) →
        c.sessions.get ⟨h, r, s⟩ = none →
        getPartySet E ω req.PartyIDs = .ok partySet →
        E.NewSignState ω partySet c.kgOutput req.SignBytes c.timeout = .ok state →
        E.PartyRoutine ω [] state = .error err →
        (c.StartSession C E ω req).2.2 = some err ∧
          c.droppedOnly (c.StartSession C E ω req).1 ⟨h, r, s⟩) ∧
      (∀ (c : LocalCosigner σ κ) (req : CosignerEndSessionRequest) (h r s : Int)
          (m : HRSMeta σ) (err : String),
        C.UnpackHRS req.SignBytes = .ok (h, r, s, c.chainId) →
        (c.lastSignState.hrs.Less ⟨h, r, s⟩ = true ∨
          (c.lastSignState.hrs = ⟨h, r, s⟩ ∧ req.SignBytes ≠ c.lastSignState.SignBytes ∧
            C.OnlyDifferByTimestamp c.lastSignState req.SignBytes = true)) →
        c.sessions.get ⟨h, r, s⟩ = some m →
        req.SignBytes = m.currentSignBytes →
        E.PartyRoutine ω req.Msg1Out m.state = .error err →
        (c.EndSession C E ω req).2.2 = some err ∧
          c.droppedOnly (c.EndSession C E ω req).1 ⟨h, r, s⟩) ∧
      (∀ (c : LocalCosigner σ κ) (K : HRSKey) (msg2out : List Bytes) (m : HRSMeta σ)
          (err : String),
        c.sessions.get K = some m →
        E.PartyRoutine ω msg2out m.state = .error err →
        (c.FinalSign E ω K msg2out).2.2 = some err ∧
          c.droppedOnly (c.FinalSign E ω K msg2out).1 K) ∧
      (∀ (c : LocalCosigner σ κ) (K : HRSKey) (msg2out : List Bytes) (m : HRSMeta σ)
          (out : List Bytes) (state1 : σ) (err : String),
        c.sessions.get K = some m →
        E.PartyRoutine ω msg2out m.state = .ok (out, state1) →
        E.WaitForError ω state1 = some err →
        (c.FinalSign E ω K msg2out).2.2 = some err ∧
          c.droppedOnly (c.FinalSign E ω K msg2out).1 K) := by
  have hdrop : ∀ (c : LocalCosigner σ κ) (k : HRSKey),
      c.droppedOnly { c with sessions := c.sessions.delete k } k := by
    intro c k
    refine ⟨?_, ?_, rfl⟩
    · simp only [Sessions.get_delete, if_pos]
    · intro k1 hk1
      simp only [Sessions.get_delete, if_neg hk1]
  refine ⟨?_, ?_, ?_, ?_⟩
  · intro c req h r s partySet state err hparse hpass hfree hset hnew hfail
    obtain ⟨b, hc, g1, g2⟩ := passes_watermark hpass
    have hres : c.StartSession C E ω req
        = ({ c with
              sessions := (c.sessions.put ⟨h, r, s⟩ ⟨state, req.SignBytes⟩).delete ⟨h, r, s⟩ },
            ⟨[], none⟩, some err) := by
      unfold LocalCosigner.StartSession
      simp only [hparse, hc]
      rw [if_neg (not_not.mpr rfl), if_neg g1, if_neg g2]
      simp only [hfree, hset, hnew, hfail]
    rw [hres]
    refine ⟨rfl, ?_, ?_, rfl⟩
    · simp only [Sessions.get_delete, if_pos]
    · intro k1 hk1
      simp only [Sessions.get_delete, if_neg hk1, Sessions.get_put]
  · intro c req h r s m err hparse hpass hlive hbytes hfail
    obtain ⟨b, hc, g1, g2⟩ := passes_watermark hpass
    have hres : c.EndSession C E ω req
        = ({ c with sessions := c.sessions.delete ⟨h, r, s⟩ }, ⟨[], none⟩, some err) := by
      unfold LocalCosigner.EndSession
      simp only [hparse, hc]
      rw [if_neg (not_not.mpr rfl), if_neg g1, if_neg g2]
      simp only [hlive]
      rw [if_neg (not_not.mpr hbytes)]
      simp only [hfail]
    rw [hres]
    exact ⟨rfl, hdrop c _⟩
  · intro c K msg2out m err hlive hfail
    have hres : c.FinalSign E ω K msg2out
        = ({ c with sessions := c.sessions.delete K }, none, some err) := by
      unfold LocalCosigner.FinalSign
      simp only [hlive, hfail]
    rw [hres]
    exact ⟨rfl, hdrop c _⟩
  · intro c K msg2out m out state1 err hlive hok hwait
    have hres : c.FinalSign E ω K msg2out
        = ({ c with sessions := c.sessions.delete K }, none, some err) := by
      unfold LocalCosigner.FinalSign
      simp only [hlive, hok, hwait]
    rw [hres]
    exact ⟨rfl, hdrop c _⟩

/-- C10, at concrete inputs: the sample engine fails `PartyRoutine` in
environment `0` and `WaitForError` in environment `1`.  `StartSession` on an
empty table, `EndSession` and `FinalSign` on the table of `afterTwoRounds` in
environment `0`, and `FinalSign` in environment `1`, each return the engine's
error and leave no session at `(10, 0, 1)`. -/
theorem engine_failure_drops_session_witness :
    sampleEngine.PartyRoutine 0 [] 0 = .error "engine failure" ∧
      sampleEngine.PartyRoutine 0 [[0]] 2 = .error "engine failure" ∧
      sampleEngine.PartyRoutine 1 [[0]] 2 = .ok ([[2]], 3) ∧
      sampleEngine.WaitForError 1 3 = some "engine timeout" ∧
      afterTwoRounds.sessions.get sampleKey = some ⟨2, sampleVote⟩ ∧
      (((sampleCosigner zeroSignState []).StartSession sampleCodec sampleEngine 0
            ⟨1, sampleVote, [1, 2]⟩).2.2 = some "engine failure" ∧
        (sampleCosigner zeroSignState []).droppedOnly
          ((sampleCosigner zeroSignState []).StartSession sampleCodec sampleEngine 0
            ⟨1, sampleVote, [1, 2]⟩).1 ⟨10, 0, 1⟩) ∧
      ((afterTwoRounds.EndSession sampleCodec sampleEngine 0
            ⟨1, sampleVote, [1, 2], [[0]]⟩).2.2 = some "engine failure" ∧
        afterTwoRounds.droppedOnly
          (afterTwoRounds.EndSession sampleCodec sampleEngine 0
            ⟨1, sampleVote, [1, 2], [[0]]⟩).1 ⟨10, 0, 1⟩) ∧
      ((afterTwoRounds.FinalSign sampleEngine 0 sampleKey [[0]]).2.2 = some "engine failure" ∧
        afterTwoRounds.droppedOnly
          (afterTwoRounds.FinalSign sampleEngine 0 sampleKey [[0]]).1 sampleKey) ∧
      ((afterTwoRounds.FinalSign sampleEngine 1 sampleKey [[0]]).2.2 = some "engine timeout" ∧
        afterTwoRounds.droppedOnly
          (afterTwoRounds.FinalSign sampleEngine 1 sampleKey [[0]]).1 sampleKey) :=
  ⟨rfl, rfl, rfl, rfl, rfl,
    (engine_failure_drops_session sampleCodec sampleEngine 0).1
      (sampleCosigner zeroSignState []) ⟨1, sampleVote, [1, 2]⟩ 10 0 1 [1, 2] 0
      "engine failure" rfl (Or.inl rfl) rfl rfl rfl rfl,
    (engine_failure_drops_session sampleCodec sampleEngine 0).2.1
      afterTwoRounds ⟨1, sampleVote, [1, 2], [[0]]⟩ 10 0 1 ⟨2, sampleVote⟩
      "engine failure" rfl (Or.inl rfl) rfl rfl rfl,
    (engine_failure_drops_session sampleCodec sampleEngine 0).2.2.1
      afterTwoRounds sampleKey [[0]] ⟨2, sampleVote⟩ "engine failure" rfl rfl,
    (engine_failure_drops_session sampleCodec sampleEngine 1).2.2.2
      afterTwoRounds sampleKey [[0]] ⟨2, sampleVote⟩ [[2]] 3 "engine timeout" rfl rfl rfl⟩

/-! ## The order on keys, as specified -/

/-- C19: `HRSKey.Less` is the strict lexicographic order on (Height, Round,
Step); it is irreflexive and transitive, and of `a.Less b`, `a = b`, `b.Less a`
exactly one holds. -/
theorem Less_strict_lexicographic (a b c : HRSKey) :
    (a.Less b = true ↔
        a.Height < b.Height ∨ (a.Height = b.Height ∧ a.Round < b.Round) ∨
          (a.Height = b.Height ∧ a.Round = b.Round ∧ a.Step < b.Step)) ∧
      a.Less a = false ∧
      (a.Less b = true → b.Less c = true → a.Less c = true) ∧
      ((a.Less b = true ∧ a ≠ b ∧ b.Less a = false) ∨
        (a.Less b = false ∧ a = b ∧ b.Less a = false) ∨
        (a.Less b = false ∧ a ≠ b ∧ b.Less a = true)) := by
  refine ⟨?_, HRSKey.Less_irrefl a, ?_, ?_⟩
  · rw [HRSKey.Less_iff]; omega
  · intro hab hbc
    rw [HRSKey.Less_iff] at *; omega
  · by_cases hab : a.Less b = true
    · refine Or.inl ⟨hab, ?_, HRSKey.not_Less_of_Less hab⟩
      intro e; rw [e, HRSKey.Less_irrefl] at hab; exact Bool.false_ne_true hab
    · have hab1 : a.Less b = false := by simpa using hab
      by_cases hba : b.Less a = true
      · refine Or.inr (Or.inr ⟨hab1, ?_, hba⟩)
        intro e; rw [e, HRSKey.Less_irrefl] at hba; exact Bool.false_ne_true hba
      · have hba1 : b.Less a = false := by simpa using hba
        refine Or.inr (Or.inl ⟨hab1, ?_, hba1⟩)
        rw [HRSKey.eq_iff]
        rw [HRSKey.Less_eq_false_iff] at hab1 hba1
        omega

/-- C19, at a concrete input: `(1, 5, 3) < (2, 0, 1) < (2, 0, 2)`. -/
theorem Less_strict_lexicographic_witness :
    HRSKey.Less ⟨1, 5, 3⟩ ⟨2, 0, 1⟩ = true ∧ HRSKey.Less ⟨2, 0, 1⟩ ⟨2, 0, 2⟩ = true ∧
      HRSKey.Less ⟨1, 5, 3⟩ ⟨2, 0, 2⟩ = true :=
  ⟨rfl, rfl, (Less_strict_lexicographic ⟨1, 5, 3⟩ ⟨2, 0, 1⟩ ⟨2, 0, 2⟩).2.2.1 rfl rfl⟩

/-! ## Live sessions and the watermark -/

/-- C20: in every state reached from an empty session table by any sequence of
calls, no session key is `Less` than the stored watermark HRS; so a `FinalSign`
that succeeds there signs at a key that is not below the watermark. -/
theorem sessions_never_below_watermark {σ κ π : Type} (C : Codec) (E : Engine σ κ π)
    (c0 : LocalCosigner σ κ) (h0 : c0.sessions = []) (calls : List Call)
    (ω : Nat) (K : HRSKey) (msg2 : List Bytes) (sig : Bytes) :
    (∀ e ∈ (c0.calls C E calls).sessions,
        e.1.Less (c0.calls C E calls).lastSignState.hrs = false) ∧
      (((c0.calls C E calls).FinalSign E ω K msg2).2 = (some sig, none) →
        K.Less (c0.calls C E calls).lastSignState.hrs = false) := by
  have hinv := (calls_keep_above C E calls c0 (sessionsAbove_of_empty c0 h0)).1
  rw [LocalCosigner.sessionsAbove_iff] at hinv
  refine ⟨hinv, fun hok => ?_⟩
  rcases FinalSign_cases E ω (c0.calls C E calls) K msg2 with
    ⟨err, h⟩ | ⟨err, h⟩ | ⟨m, out, st1, hg, -, -, -⟩
  · rw [h] at hok; simp at hok
  · rw [h] at hok; simp at hok
  · exact hinv _ (Sessions.mem_of_get hg)

/-- C20, at a concrete input: after `StartSession`, `EndSession` and a peer's
`SetSignature` at the same HRS, the live session sits at the watermark and
`FinalSign` signs there. -/
theorem sessions_never_below_watermark_witness :
    (sampleCosigner zeroSignState []).sessions = [] ∧
      (afterPeerSignature.FinalSign sampleEngine 5 sampleKey [[1]]).2
        = (some (List.replicate 64 3), none) ∧
      sampleKey.Less afterPeerSignature.lastSignState.hrs = false :=
  ⟨rfl, rfl,
    (sessions_never_below_watermark sampleCodec sampleEngine (sampleCosigner zeroSignState [])
      rfl
      [.StartSession 5 ⟨1, sampleVote, [1, 2]⟩, .EndSession 5 ⟨1, sampleVote, [1, 2], [[0]]⟩,
        .SetSignature ⟨2, sampleOtherVote, List.replicate 64 9⟩]
      5 sampleKey [[1]] (List.replicate 64 3)).2 rfl⟩

/-! ## Requests on the wire -/

/-- What `MsgToRequest` does on a message with at least three frames. -/
theorem MsgToRequest_cons (f0 f1 f2 : Bytes) (rest : List Bytes) :
    MsgToRequest (f0 :: f1 :: f2 :: rest) =
      match f0 with
      | roundt :: partyId :: _ =>
        if f1 = [] ∨ f2 = [] then .ok none
        else if roundt = 0 then .ok (some (.StartSession ⟨partyId, f1, f2⟩))
        else if roundt = 1 then .ok (some (.EndSession ⟨partyId, f1, f2, rest⟩))
        else if roundt = 2 then .ok (some (.SetSignature ⟨partyId, f1, f2⟩))
        else .ok none
      | _ => .ok none := by
  rcases f0 with _ | ⟨roundt, _ | ⟨partyId, t⟩⟩
  · simp [MsgToRequest]
  · simp [MsgToRequest]
  · simp only [MsgToRequest, List.length_cons, List.getElem?_cons_zero, List.getElem?_cons_succ,
      List.drop_succ_cons, List.drop_zero, List.length_eq_zero]
    rw [if_neg (by omega), if_neg (by omega)]
    simp

/-- What `MsgToRequest` does on a message with fewer than three frames. -/
theorem MsgToRequest_short (msg : List Bytes) (h : msg.length < 3) :
    MsgToRequest msg = .ok none := by
  simp [MsgToRequest, h]

/-- C16: `MsgToRequest` never panics; it returns nil exactly when the message
has fewer than 3 frames, or frame 0 has fewer than 2 bytes, or frame 1 or
frame 2 is empty, or the round tag is not 0, 1 or 2; in every other case it
returns the `StartSession`, `EndSession` or `SetSignature` request for tag 0,
1 or 2. -/
theorem MsgToRequest_nil_iff (msg : List Bytes) :
    (∃ r, MsgToRequest msg = .ok r) ∧
      (MsgToRequest msg = .ok none ↔
        (msg.length < 3 ∨ (msg.getD 0 []).length < 2 ∨ (msg.getD 1 []).length = 0 ∨
          (msg.getD 2 []).length = 0 ∨
          ¬ ((msg.getD 0 []).getD 0 0 = 0 ∨ (msg.getD 0 []).getD 0 0 = 1 ∨
            (msg.getD 0 []).getD 0 0 = 2))) ∧
      (∀ roundt partyId t f1 f2 rest,
        msg = (roundt :: partyId :: t) :: f1 :: f2 :: rest → f1 ≠ [] → f2 ≠ [] →
          (roundt = 0 → MsgToRequest msg = .ok (some (.StartSession ⟨partyId, f1, f2⟩))) ∧
          (roundt = 1 →
            MsgToRequest msg = .ok (some (.EndSession ⟨partyId, f1, f2, rest⟩))) ∧
          (roundt = 2 → MsgToRequest msg = .ok (some (.SetSignature ⟨partyId, f1, f2⟩)))) := by
  refine ⟨?_, ?_, ?_⟩
  · rcases msg with _ | ⟨f0, _ | ⟨f1, _ | ⟨f2, rest⟩⟩⟩
    · exact ⟨none, MsgToRequest_short _ (by simp)⟩
    · exact ⟨none, MsgToRequest_short _ (by simp)⟩
    · exact ⟨none, MsgToRequest_short _ (by simp)⟩
    · rw [MsgToRequest_cons]
      rcases f0 with _ | ⟨roundt, _ | ⟨partyId, t⟩⟩
      · exact ⟨none, rfl⟩
      · exact ⟨none, rfl⟩
      · simp only []
        split_ifs <;> exact ⟨_, rfl⟩
  · rcases msg with _ | ⟨f0, _ | ⟨f1, _ | ⟨f2, rest⟩⟩⟩
    · simp [MsgToRequest_short]
    · simp [MsgToRequest_short]
    · simp [MsgToRequest_short]
    · rw [MsgToRequest_cons]
      rcases f0 with _ | ⟨roundt, _ | ⟨partyId, t⟩⟩
      · simp
      · simp
      · simp only [List.length_cons, List.getD_cons_zero, List.getD_cons_succ,
          List.length_eq_zero]
        by_cases h1 : f1 = [] ∨ f2 = []
        · rw [if_pos h1]
          rcases h1 with h1 | h1 <;> simp [h1]
        · rw [if_neg h1]
          have h1a : f1 ≠ [] := fun e => h1 (Or.inl e)
          have h1b : f2 ≠ [] := fun e => h1 (Or.inr e)
          split_ifs with ha hb hc <;> simp [*]
  · intro roundt partyId t f1 f2 rest hmsg h1 h2
    subst hmsg
    rw [MsgToRequest_cons]
    have h12 : ¬ (f1 = [] ∨ f2 = []) := by simp [h1, h2]
    simp only [if_neg h12]
    refine ⟨?_, ?_, ?_⟩
    · intro h; simp [h]
    · intro h; simp [h]
    · intro h; simp [h]

/-- C17: `MsgToRequest` on the frames `RemoteCosigners` builds for a request
with non-empty SignBytes and non-empty PartyIDs (or Sig) returns the same
request: same kind, ID, SignBytes, PartyIDs or Sig, and the same `Msg1Out`
frames in the same order. -/
theorem wire_round_trip (start : CosignerStartSessionRequest)
    (finish : CosignerEndSessionRequest) (setsig : CosignerSetSignatureRequest)
    (h1 : start.SignBytes ≠ []) (h2 : start.PartyIDs ≠ [])
    (h3 : finish.SignBytes ≠ []) (h4 : finish.PartyIDs ≠ [])
    (h5 : setsig.SignBytes ≠ []) (h6 : setsig.Sig ≠ []) :
    MsgToRequest (startSessionFrames start) = .ok (some (.StartSession start)) ∧
      MsgToRequest (endSessionFrames finish) = .ok (some (.EndSession finish)) ∧
      MsgToRequest (setSignatureFrames setsig) = .ok (some (.SetSignature setsig)) := by
  refine ⟨?_, ?_, ?_⟩
  · simp [startSessionFrames, MsgToRequest_cons, h1, h2]
  · simp [endSessionFrames, MsgToRequest_cons, h3, h4]
  · simp [setSignatureFrames, MsgToRequest_cons, h5, h6]

/-- C17, at a concrete input: an `EndSession` request with two round-1 frames. -/
theorem wire_round_trip_witness :
    MsgToRequest (endSessionFrames ⟨3, sampleVote, [1, 2, 3], [[7, 7], [], [8]]⟩)
      = .ok (some (.EndSession ⟨3, sampleVote, [1, 2, 3], [[7, 7], [], [8]]⟩)) :=
  (wire_round_trip ⟨3, sampleVote, [1, 2, 3]⟩ ⟨3, sampleVote, [1, 2, 3], [[7, 7], [], [8]]⟩
    ⟨3, sampleVote, List.replicate 64 9⟩ (by decide) (by decide) (by decide) (by decide)
    (by decide) (by decide)).2.1

/-! ## The server's reply to an unparseable request -/

/-- Whenever `MsgToRequest` returns nil, the server takes the `else` branch of
`err == nil && req != nil`: it sends one message, `error` followed by the
formatted receive error, and leaves the local cosigner alone. -/
theorem loopTurn_nil_request {σ κ π : Type} (C : Codec) (E : Engine σ κ π) (ω : Nat)
    (Local : LocalCosigner σ κ) (msg : List Bytes) (err : Option String)
    (hnil : MsgToRequest msg = .ok none) :
    SignerServer.loopTurn C E ω Local msg err
      = .ok (Local, [[strBytes "error", strBytes (sprintfErr err)]]) := by
  simp [SignerServer.loopTurn, hnil]

/-- C18, evaluated at the failing input: a three-frame message with round tag
`9` is received without error; `MsgToRequest` returns nil and the server sends
exactly one reply, `["error", "err: <nil>"]`, which is not
`["error", "unknown request type"]`. -/
theorem unparseable_request_reply :
    MsgToRequest [[9, 1], [1], [2]] = .ok none ∧
      SignerServer.loopTurn sampleCodec sampleEngine 5 (sampleCosigner zeroSignState [])
          [[9, 1], [1], [2]] none
        = .ok (sampleCosigner zeroSignState [], [[strBytes "error", strBytes "err: <nil>"]]) ∧
      [strBytes "error", strBytes "err: <nil>"]
        ≠ [strBytes "error", strBytes "unknown request type"] := by
  refine ⟨rfl, rfl, by decide⟩

/-! ## Choosing the quorum -/

theorem SocketMap.mem_put_entry (m : SocketMap) (k v : Nat) (e : Nat × Nat) :
    e ∈ SocketMap.put m k v ↔ e = (k, v) ∨ (e ∈ m ∧ e.1 ≠ k) := by
  simp [SocketMap.put, SocketMap.delete]

theorem SocketMap.delete_absent (m : SocketMap) (k : Nat) (h : ∀ e ∈ m, e.1 ≠ k) :
    SocketMap.delete m k = m := by
  unfold SocketMap.delete
  rw [List.filter_eq_self]
  intro e he
  simpa using h e he

theorem SocketMap.nodup_put (m : SocketMap) (k v : Nat) (h : (m.map Prod.fst).Nodup) :
    ((SocketMap.put m k v).map Prod.fst).Nodup := by
  unfold SocketMap.put SocketMap.delete
  rw [List.map_cons, List.nodup_cons]
  refine ⟨?_, ?_⟩
  · simp
  · exact h.sublist (List.Sublist.map _ (List.filter_sublist _))

/-- The rehydrating loop `ActiveClients[k] = v` keeps sockets distinct, keeps
every entry whose socket it does not assign, and ends with every entry it
assigned when the assigned sockets are distinct. -/
theorem foldl_put_spec (l : SocketMap) :
    ∀ acc : SocketMap, (acc.map Prod.fst).Nodup →
      ((l.foldl (fun a e => SocketMap.put a e.1 e.2) acc).map Prod.fst).Nodup ∧
        (∀ e ∈ acc, e.1 ∉ l.map Prod.fst →
          e ∈ l.foldl (fun a e => SocketMap.put a e.1 e.2) acc) ∧
        ((l.map Prod.fst).Nodup →
          ∀ e ∈ l, e ∈ l.foldl (fun a e => SocketMap.put a e.1 e.2) acc) := by
  induction l with
  | nil => intro acc h; exact ⟨h, fun e he _ => he, fun _ e he => by simp at he⟩
  | cons x rest ih =>
    intro acc h
    obtain ⟨k, v⟩ := x
    obtain ⟨h1, h2, h3⟩ := ih (SocketMap.put acc k v) (SocketMap.nodup_put acc k v h)
    simp only [List.foldl_cons]
    refine ⟨h1, ?_, ?_⟩
    · intro e he hne
      simp only [List.map_cons, List.mem_cons, not_or] at hne
      exact h2 e ((SocketMap.mem_put_entry _ _ _ _).2 (Or.inr ⟨he, hne.1⟩)) hne.2
    · intro hnd e he
      simp only [List.map_cons, List.nodup_cons] at hnd
      rcases List.mem_cons.1 he with rfl | he
      · exact h2 _ ((SocketMap.mem_put_entry _ _ _ _).2 (Or.inl rfl)) hnd.1
      · exact h3 hnd.2 e he

/-- The choosing loop on enough active clients with distinct sockets: it takes
the first `threshold - i` of them, writes their ids from index `i` on, and
records them as session clients, without leaving its slice. -/
theorem pickParties_spec (T : Nat) (l : SocketMap) :
    ∀ (i : Nat) (pre : Bytes) (sess : SocketMap), i < T → T - i ≤ l.length →
      pre.length = i → (l.map Prod.fst).Nodup → (∀ e ∈ l, ∀ f ∈ sess, f.1 ≠ e.1) →
      pickParties T l i (pre ++ List.replicate (T + 1 - i) 0) sess
        = .ok (pre ++ (l.take (T - i)).map Prod.snd ++ [0], (l.take (T - i)).reverse ++ sess) := by
  induction l with
  | nil =>
    intro i pre sess hi hlen
    simp only [List.length_nil] at hlen
    omega
  | cons x rest ih =>
    intro i pre sess hi hlen hpre hnd hdis
    obtain ⟨k, v⟩ := x
    have hput : SocketMap.put sess k v = (k, v) :: sess := by
      unfold SocketMap.put
      rw [SocketMap.delete_absent sess k (fun f hf => hdis (k, v) (List.mem_cons_self _ _) f hf)]
    have hrep : T + 1 - i = (T - i) + 1 := by omega
    have hset : (pre ++ List.replicate (T + 1 - i) 0).set i v
        = (pre ++ [v]) ++ List.replicate (T - i) 0 := by
      rw [hrep, List.replicate_succ, ← hpre]
      simp
    have hin : i < (pre ++ List.replicate (T + 1 - i) 0).length := by
      simp only [List.length_append, List.length_replicate]; omega
    have htake : (k, v) :: rest = (k, v) :: rest := rfl
    simp only [pickParties, if_pos hin, hput, hset]
    by_cases hlast : i + 1 = T
    · rw [if_pos hlast]
      have h1 : T - i = 1 := by omega
      simp [h1]
    · rw [if_neg hlast]
      simp only [List.map_cons, List.nodup_cons] at hnd
      have hrep2 : T - i = T + 1 - (i + 1) := by omega
      rw [hrep2]
      rw [ih (i + 1) (pre ++ [v]) ((k, v) :: sess) (by omega)
        (by simp only [List.length_cons] at hlen; omega) (by simp [hpre]) hnd.2
        (by
          intro e he f hf
          rcases List.mem_cons.1 hf with rfl | hf
          · intro heq
            exact hnd.1 (List.mem_map.2 ⟨e, he, heq.symm⟩)
          · exact hdis e (List.mem_cons_of_mem _ he) f hf)]
      have h2 : T + 1 - (i + 1) = (T - (i + 1)) + 1 := by omega
      rw [h2, List.take_succ_cons]
      simp

/-- C14: with `Threshold >= 1`, at least `Threshold` configured peers and maps
with distinct sockets, `ResetParties` returns without an index out of range a
slice of length `Threshold + 1`: the party ids of `Threshold` peers with
distinct sockets, which are the peers it records in `SessionClients` and are
all in `ActiveClients`, followed by `LocalID`.  This holds whatever order the
maps are visited in. -/
theorem ResetParties_quorum (range : SocketMap → SocketMap)
    (hrange : ∀ m, (range m).Perm m) (c : RemoteCosigners)
    (hC : (c.Clients.map Prod.fst).Nodup) (hA : (c.ActiveClients.map Prod.fst).Nodup)
    (hT : 1 ≤ c.Threshold) (hn : c.Threshold ≤ c.Clients.length) :
    ∃ c1 parties chosen, c.ResetParties range = .ok (c1, parties) ∧
      parties = chosen.map Prod.snd ++ [c.LocalID] ∧
      parties.length = c.Threshold + 1 ∧ parties[c.Threshold]? = some c.LocalID ∧
      chosen.length = c.Threshold ∧ (chosen.map Prod.fst).Nodup ∧
      c1.SessionClients.Perm chosen ∧ (∀ e ∈ chosen, e ∈ c1.ActiveClients) := by
  -- the active clients after the optional rehydration
  obtain ⟨active, hactive, hand, halen⟩ :
      ∃ active : SocketMap,
        (if c.ActiveClients.length < c.Threshold then
            (range c.Clients).foldl (fun a e => SocketMap.put a e.1 e.2) c.ActiveClients
          else c.ActiveClients) = active ∧
        (active.map Prod.fst).Nodup ∧ c.Threshold ≤ active.length := by
    by_cases hlt : c.ActiveClients.length < c.Threshold
    · refine ⟨_, rfl, ?_, ?_⟩
      · rw [if_pos hlt]; exact (foldl_put_spec _ _ hA).1
      · rw [if_pos hlt]
        have hRnd : ((range c.Clients).map Prod.fst).Nodup :=
          ((hrange c.Clients).map Prod.fst).nodup_iff.2 hC
        have hsub : range c.Clients ⊆
            (range c.Clients).foldl (fun a e => SocketMap.put a e.1 e.2) c.ActiveClients :=
          fun e he => (foldl_put_spec _ _ hA).2.2 hRnd e he
        have hnd : (range c.Clients).Nodup := List.Nodup.of_map _ hRnd
        have hle := (hnd.subperm hsub).length_le
        rw [(hrange c.Clients).length_eq] at hle
        omega
    · exact ⟨_, rfl, by rw [if_neg hlt]; exact hA, by rw [if_neg hlt]; omega⟩
  have hRnd : ((range active).map Prod.fst).Nodup :=
    ((hrange active).map Prod.fst).nodup_iff.2 hand
  have hRlen : c.Threshold ≤ (range active).length := by
    rw [(hrange active).length_eq]; exact halen
  have hpick := pickParties_spec c.Threshold (range active) 0 [] [] (by omega) (by omega) rfl
    hRnd (by intro e _ f hf; simp at hf)
  simp only [List.nil_append, Nat.sub_zero, List.append_nil] at hpick
  have htl : ((range active).take c.Threshold).length = c.Threshold := by
    rw [List.length_take]; omega
  refine ⟨
    { c with
      ActiveClients := active
      SessionClients := ((range active).take c.Threshold).reverse },
    ((range active).take c.Threshold).map Prod.snd ++ [c.LocalID],
    (range active).take c.Threshold, ?_, rfl, ?_, ?_, htl, ?_, ?_, ?_⟩
  · unfold RemoteCosigners.ResetParties
    simp only [hactive, hpick]
    have hlen : c.Threshold < (List.map Prod.snd (List.take c.Threshold (range active))
        ++ [0]).length := by
      simp only [List.length_append, List.length_map, htl, List.length_singleton]; omega
    rw [if_pos hlen]
    have hset : (List.map Prod.snd (List.take c.Threshold (range active)) ++ [0]).set
        c.Threshold c.LocalID
          = List.map Prod.snd (List.take c.Threshold (range active)) ++ [c.LocalID] := by
      have hl : (List.map Prod.snd (List.take c.Threshold (range active))).length
          = c.Threshold := by rw [List.length_map, htl]
      conv_lhs => rw [← hl]
      simp
    rw [hset]
  · simp only [List.length_append, List.length_map, htl, List.length_singleton]
  · have hl : (List.map Prod.snd (List.take c.Threshold (range active))).length
        = c.Threshold := by rw [List.length_map, htl]
    conv_lhs => rw [← hl]
    simp
  · exact hRnd.sublist (List.Sublist.map _ (List.take_sublist _ _))
  · exact List.reverse_perm _
  · intro e he
    exact (hrange active).subset (List.mem_of_mem_take he)

/-- C14, at a concrete input: three peers, threshold `2`, all active. -/
theorem ResetParties_quorum_witness :
    (∀ m : SocketMap, (id m).Perm m) ∧ (samplePeers.Clients.map Prod.fst).Nodup ∧
      (samplePeers.ActiveClients.map Prod.fst).Nodup ∧ 1 ≤ samplePeers.Threshold ∧
      samplePeers.Threshold ≤ samplePeers.Clients.length ∧
      samplePeers.ResetParties id
        = .ok ({ samplePeers with SessionClients := [(2, 3), (1, 2)] }, [2, 3, 1]) ∧
      ∃ c1 parties chosen, samplePeers.ResetParties id = .ok (c1, parties) ∧
        parties = chosen.map Prod.snd ++ [samplePeers.LocalID] ∧
        parties.length = samplePeers.Threshold + 1 ∧
        parties[samplePeers.Threshold]? = some samplePeers.LocalID ∧
        chosen.length = samplePeers.Threshold ∧ (chosen.map Prod.fst).Nodup ∧
        c1.SessionClients.Perm chosen ∧ (∀ e ∈ chosen, e ∈ c1.ActiveClients) :=
  ⟨fun m => List.Perm.refl m, by decide, by decide, by decide, by decide, rfl,
    ResetParties_quorum id (fun m => List.Perm.refl m) samplePeers (by decide) (by decide)
      (by decide) (by decide)⟩

/-- The choosing loop never leaves its slice when the threshold is positive. -/
theorem pickParties_ok (T : Nat) (l : SocketMap) :
    ∀ (i : Nat) (arr : Bytes) (sess : SocketMap), i < T → arr.length = T + 1 →
      ∃ r, pickParties T l i arr sess = .ok r ∧ r.1.length = T + 1 := by
  induction l with
  | nil => intro i arr sess _ harr; exact ⟨_, rfl, harr⟩
  | cons x rest ih =>
    intro i arr sess hi harr
    obtain ⟨k, v⟩ := x
    have hin : i < arr.length := by omega
    simp only [pickParties, if_pos hin]
    by_cases hlast : i + 1 = T
    · rw [if_pos hlast]; exact ⟨_, rfl, by simp [harr]⟩
    · rw [if_neg hlast]
      exact ih (i + 1) _ _ (by omega) (by simp [harr])

/-- C15 as stated fails: with three configured peers, threshold `2` and socket
`3` dropped from the active clients, two active clients remain, `ResetParties`
does not rehydrate, and socket `3` is still not active afterwards. -/
theorem dropped_peer_not_returned :
    (3, 4) ∈ samplePeersOneDropped.Clients ∧
      SocketMap.contains samplePeersOneDropped.ActiveClients 3 = false ∧
      samplePeersOneDropped.ResetParties id
        = .ok ({ samplePeersOneDropped with SessionClients := [(2, 3), (1, 2)] }, [2, 3, 1]) ∧
      SocketMap.contains
        ({ samplePeersOneDropped with SessionClients := [(2, 3), (1, 2)] }).ActiveClients 3
          = false := by
  refine ⟨by decide, rfl, rfl, rfl⟩

/-- C15, amended: when fewer than `Threshold` peers are left in `ActiveClients`,
`ResetParties` returns every configured peer to `ActiveClients`, whatever order
the maps are visited in. -/
theorem ResetParties_rehydrates (range : SocketMap → SocketMap)
    (hrange : ∀ m, (range m).Perm m) (c : RemoteCosigners)
    (hC : (c.Clients.map Prod.fst).Nodup) (hA : (c.ActiveClients.map Prod.fst).Nodup)
    (hlt : c.ActiveClients.length < c.Threshold) :
    ∃ c1 parties, c.ResetParties range = .ok (c1, parties) ∧
      ∀ e ∈ c.Clients, e ∈ c1.ActiveClients := by
  have hRnd : ((range c.Clients).map Prod.fst).Nodup :=
    ((hrange c.Clients).map Prod.fst).nodup_iff.2 hC
  obtain ⟨r, hr, hrlen⟩ := pickParties_ok c.Threshold
    (range ((range c.Clients).foldl (fun a e => SocketMap.put a e.1 e.2) c.ActiveClients))
    0 (List.replicate (c.Threshold + 1) 0) [] (by omega) (by simp)
  refine ⟨{ c with
      ActiveClients :=
        (range c.Clients).foldl (fun a e => SocketMap.put a e.1 e.2) c.ActiveClients
      SessionClients := r.2 },
    r.1.set c.Threshold c.LocalID, ?_, ?_⟩
  · unfold RemoteCosigners.ResetParties
    simp only [if_pos hlt, hr]
    rw [if_pos (by omega)]
  · intro e he
    exact (foldl_put_spec _ _ hA).2.2 hRnd e ((hrange c.Clients).symm.subset he)

/-- C15 amended, at a concrete input: threshold `2`, only socket `1` active. -/
theorem ResetParties_rehydrates_witness :
    (({ samplePeers with ActiveClients := [(1, 2)] } : RemoteCosigners).ActiveClients.length
        < samplePeers.Threshold) ∧
      ∃ c1 parties,
        ({ samplePeers with ActiveClients := [(1, 2)] } : RemoteCosigners).ResetParties id
          = .ok (c1, parties) ∧
        ∀ e ∈ samplePeers.Clients, e ∈ c1.ActiveClients :=
  ⟨by decide,
    ResetParties_rehydrates id (fun m => List.Perm.refl m)
      { samplePeers with ActiveClients := [(1, 2)] } (by decide) (by decide) (by decide)⟩

/-! ## A round of the peer client -/

theorem strBytes_error_ne_signature : strBytes "error" ≠ strBytes "signature" := by decide

/-- One polled item, when the frames the loop indexes exist (a first frame in a
reply received without error, a second frame in a session peer's signature
reply): the step does not panic, counts the item when it is a collected reply,
and takes `MaybeSig` from it when it is a peer's signature reply.  An item whose
receive failed needs no frames. -/
theorem collectStep_spec (session : SocketMap) (st : Collected) (item : PollItem)
    (h0 : item.pollin = true → item.err = none → item.reply ≠ [])
    (h1 : item.isPeerSignature session = true → 2 ≤ item.reply.length) :
    ∃ st1, collectStep session st item = .ok st1 ∧
      st1.collected = st.collected + (if item.isCollected session = true then 1 else 0) ∧
      st1.MaybeSig
        = (if item.isPeerSignature session = true then item.reply[1]? else st.MaybeSig) := by
  obtain ⟨sock, pollin, err, reply⟩ := item
  have hne := strBytes_error_ne_signature
  rcases reply with _ | ⟨r0, _ | ⟨r1, rest⟩⟩
  · cases pollin with
    | false => simp [collectStep, PollItem.isCollected, PollItem.isPeerSignature]
    | true =>
      cases err with
      | none => exact absurd rfl (h0 rfl rfl)
      | some e => simp [collectStep, PollItem.isCollected, PollItem.isPeerSignature]
  · by_cases hps : PollItem.isPeerSignature session ⟨sock, pollin, err, [r0]⟩ = true
    · have h2 := h1 hps
      simp at h2
    · simp only [PollItem.isPeerSignature, List.head?_cons, Option.some.injEq,
        Bool.and_eq_true, decide_eq_true_eq, not_and, Option.isNone_iff_eq_none] at hps
      cases pollin <;> cases err <;> by_cases e1 : r0 = strBytes "error" <;>
        by_cases e2 : r0 = strBytes "signature" <;>
        by_cases hc : SocketMap.contains session sock = true <;>
        simp [collectStep, PollItem.isCollected, PollItem.isPeerSignature, e1, e2, hc, hne,
          hne.symm] at hps ⊢
  · cases pollin <;> cases err <;> by_cases e1 : r0 = strBytes "error" <;>
      by_cases e2 : r0 = strBytes "signature" <;>
      by_cases hc : SocketMap.contains session sock = true <;>
      simp [collectStep, PollItem.isCollected, PollItem.isPeerSignature, e1, e2, hc, hne,
        hne.symm]

/-- The receive loop when the frames it indexes exist: it does not panic,
`collected` grows by the number of collected replies, and `MaybeSig` is
untouched when no session peer sent a signature reply. -/
theorem collectLoop_spec (session : SocketMap) (polled : List PollItem) :
    ∀ st : Collected,
      (∀ item ∈ polled, item.pollin = true → item.err = none → item.reply ≠ []) →
      (∀ item ∈ polled, item.isPeerSignature session = true → 2 ≤ item.reply.length) →
      ∃ st1, collectLoop session polled st = .ok st1 ∧
        st1.collected = st.collected + collectedReplies session polled ∧
        ((∀ item ∈ polled, item.isPeerSignature session = false) →
          st1.MaybeSig = st.MaybeSig) := by
  induction polled with
  | nil => intro st _ _; exact ⟨st, rfl, by simp [collectedReplies], fun _ => rfl⟩
  | cons item rest ih =>
    intro st hf hg
    obtain ⟨st1, h1, hc1, hs1⟩ :=
      collectStep_spec session st item (hf item (List.mem_cons_self _ _))
        (hg item (List.mem_cons_self _ _))
    obtain ⟨st2, h2, hc2, hs2⟩ := ih st1 (fun i hi => hf i (List.mem_cons_of_mem _ hi))
      (fun i hi => hg i (List.mem_cons_of_mem _ hi))
    refine ⟨st2, by simp only [collectLoop, h1, h2], ?_, ?_⟩
    · rw [hc2, hc1]
      unfold collectedReplies
      by_cases hcol : item.isCollected session = true
      · rw [List.filter_cons_of_pos hcol, if_pos hcol, List.length_cons]; omega
      · rw [List.filter_cons_of_neg hcol, if_neg hcol]; omega
    · intro hno
      rw [hs2 (fun i hi => hno i (List.mem_cons_of_mem _ hi)), hs1,
        if_neg (by rw [hno item (List.mem_cons_self _ _)]; exact Bool.false_ne_true)]

/-- The receive loop when the last signature reply of a session peer carries
`sig` as its second frame: `MaybeSig` ends as `sig`, and `collected` has grown
by the number of collected replies. -/
theorem collectLoop_signature (session : SocketMap) (item : PollItem) (post : List PollItem)
    (sig : Bytes) (hitem : item.isPeerSignature session = true)
    (hsig : item.reply[1]? = some sig)
    (hpost : ∀ i ∈ post, i.isPeerSignature session = false) (pre : List PollItem) :
    ∀ st : Collected,
      (∀ i ∈ pre ++ item :: post, i.pollin = true → i.err = none → i.reply ≠ []) →
      (∀ i ∈ pre ++ item :: post, i.isPeerSignature session = true → 2 ≤ i.reply.length) →
      ∃ st1, collectLoop session (pre ++ item :: post) st = .ok st1 ∧
        st1.MaybeSig = some sig ∧
        st1.collected = st.collected + collectedReplies session (pre ++ item :: post) := by
  intro st hf hg
  obtain ⟨stA, hA, hcA, -⟩ := collectLoop_spec session (pre ++ item :: post) st hf hg
  refine ⟨stA, hA, ?_, hcA⟩
  clear hcA
  induction pre generalizing st stA with
  | nil =>
    obtain ⟨st1, h1, -, hs1⟩ :=
      collectStep_spec session st item (hf item (by simp)) (hg item (by simp))
    obtain ⟨st2, h2, -, hs2⟩ :=
      collectLoop_spec session post st1 (fun i hi => hf i (by simp [hi]))
        (fun i hi => hg i (by simp [hi]))
    have hA2 : collectLoop session ([] ++ item :: post) st = .ok st2 := by
      simp only [List.nil_append, collectLoop, h1, h2]
    rw [hA2] at hA
    simp only [Except.ok.injEq] at hA
    subst hA
    rw [hs2 hpost, hs1, if_pos hitem, hsig]
  | cons x rest ih =>
    obtain ⟨st1, h1, -, -⟩ :=
      collectStep_spec session st x (hf x (by simp)) (hg x (by simp))
    refine ih st1 (fun i hi => hf i (by
        simp only [List.cons_append, List.mem_cons]; exact Or.inr hi))
      (fun i hi => hg i (by
        simp only [List.cons_append, List.mem_cons]; exact Or.inr hi)) stA ?_
    rw [List.cons_append] at hA
    simp only [collectLoop, h1] at hA
    exact hA

/-- C12 as stated fails: with threshold `2` and one collected reply, no
signature reply, `StartSession` returns without error although the number of
collected replies, `1`, is less than the threshold. -/
theorem one_reply_passes_threshold_two :
    collectedReplies samplePeersInSession.SessionClients [sampleRoundReply] = 1 ∧
      samplePeersInSession.Threshold = 2 ∧
      samplePeersInSession.StartSession (sampleNet [sampleRoundReply])
          ⟨1, sampleVote, [2, 3, 1]⟩
        = .ok (samplePeersInSession, ⟨[[7]], none⟩, none) := by
  refine ⟨rfl, rfl, rfl⟩

/-- C12, amended: in a round whose poll succeeds, in which every reply received
without error has at least one frame and no session peer sent a signature
reply, `StartSession` and `EndSession` fail with `not enough messages collected`
exactly when the number of collected replies plus one (the count starts at 1)
is less than `Threshold`, and return without error otherwise, that is only
when at least `Threshold - 1` replies were collected.  Items whose receive
failed may be among the polled items. -/
theorem round_counts_from_one (net : Net) (c : RemoteCosigners)
    (start : CosignerStartSessionRequest) (finish : CosignerEndSessionRequest)
    (polled : List PollItem) (hpoll : net.Poll = .ok polled)
    (hrecv : ∀ item ∈ polled, item.pollin = true → item.err = none → item.reply ≠ [])
    (hnosig : ∀ item ∈ polled, item.isPeerSignature c.SessionClients = false) :
    ∃ c1 res1 c2 res2,
      c.StartSession net start
        = .ok (c1, res1,
            if collectedReplies c.SessionClients polled + 1 < c.Threshold then
              some "not enough messages collected" else none) ∧
      c.EndSession net finish
        = .ok (c2, res2,
            if collectedReplies c.SessionClients polled + 1 < c.Threshold then
              some "not enough messages collected" else none) := by
  have hg : ∀ item ∈ polled, item.isPeerSignature c.SessionClients = true →
      2 ≤ item.reply.length := by
    intro item hi hs
    rw [hnosig item hi] at hs
    exact absurd hs Bool.false_ne_true
  obtain ⟨st1, h1, hc1, hs1⟩ := collectLoop_spec c.SessionClients polled
    ⟨sendToAll net c.SessionClients c.ActiveClients (startSessionFrames start), none, 1, []⟩
    hrecv hg
  obtain ⟨st2, h2, hc2, hs2⟩ := collectLoop_spec c.SessionClients polled
    ⟨sendToAll net c.SessionClients c.ActiveClients (endSessionFrames finish), none, 1, []⟩
    hrecv hg
  have hm1 := hs1 hnosig
  have hm2 := hs2 hnosig
  simp only [] at hm1 hm2 hc1 hc2
  have e1 : st1.collected = collectedReplies c.SessionClients polled + 1 := by omega
  have e2 : st2.collected = collectedReplies c.SessionClients polled + 1 := by omega
  refine ⟨{ c with ActiveClients := st1.ActiveClients }, ⟨st1.msgsOut, st1.MaybeSig⟩,
    { c with ActiveClients := st2.ActiveClients }, ⟨st2.msgsOut, st2.MaybeSig⟩, ?_, ?_⟩
  · unfold RemoteCosigners.StartSession
    simp only [hpoll, h1, hm1, e1, Option.getD_none, List.length_nil]
    rw [if_neg (by decide)]
    split_ifs <;> rfl
  · unfold RemoteCosigners.EndSession
    simp only [hpoll, h2, hm2, e2, Option.getD_none, List.length_nil]
    rw [if_neg (by decide)]
    split_ifs <;> rfl

/-- C12 amended, at a concrete input: threshold `2`; the receive from socket
`3` fails, the session peer on socket `1` sends an error reply and the one on
socket `2` a round message.  One reply is collected and both calls return
without error. -/
theorem round_counts_from_one_witness :
    collectedReplies samplePeersInSession.SessionClients
        [sampleFailedReceive, sampleErrorReply, sampleRoundReply] = 1 ∧
      samplePeersInSession.Threshold = 2 ∧
      ∃ c1 res1 c2 res2,
        samplePeersInSession.StartSession
            (sampleNet [sampleFailedReceive, sampleErrorReply, sampleRoundReply])
            ⟨1, sampleVote, [2, 3, 1]⟩
          = .ok (c1, res1,
              if collectedReplies samplePeersInSession.SessionClients
                  [sampleFailedReceive, sampleErrorReply, sampleRoundReply] + 1
                  < samplePeersInSession.Threshold then
                some "not enough messages collected" else none) ∧
        samplePeersInSession.EndSession
            (sampleNet [sampleFailedReceive, sampleErrorReply, sampleRoundReply])
            ⟨1, sampleVote, [2, 3, 1], [[0]]⟩
          = .ok (c2, res2,
              if collectedReplies samplePeersInSession.SessionClients
                  [sampleFailedReceive, sampleErrorReply, sampleRoundReply] + 1
                  < samplePeersInSession.Threshold then
                some "not enough messages collected" else none) :=
  ⟨rfl, rfl,
    round_counts_from_one (sampleNet [sampleFailedReceive, sampleErrorReply, sampleRoundReply])
      samplePeersInSession ⟨1, sampleVote, [2, 3, 1]⟩ ⟨1, sampleVote, [2, 3, 1], [[0]]⟩
      [sampleFailedReceive, sampleErrorReply, sampleRoundReply] rfl (by decide) (by decide)⟩

/-- C13 as stated fails: a session peer replies `signature` with a second frame
of three bytes; `StartSession` sets `MaybeSig` to it and fails with
`not enough messages collected`, not with `signed before`. -/
theorem short_signature_reply_not_signed_before :
    samplePeersInSession.StartSession (sampleNet [sampleShortSignatureReply])
        ⟨1, sampleVote, [2, 3, 1]⟩
      = .ok (samplePeersInSession, ⟨[], some [1, 2, 3]⟩,
          some "not enough messages collected") := by
  rfl

/-- C13, amended: in a round whose poll succeeds and in which the frames the
loop indexes exist (a first frame in every reply received without error, a
second frame in every signature reply of a session peer), when the last
signature reply of a session peer has second frame `sig`, `StartSession` and
`EndSession` set `MaybeSig` to `sig`; they fail with `signed before` when `sig`
is 64 bytes long, and with any other length they go on to the collected-count
check: `not enough messages collected` when the number of collected replies
plus one is less than `Threshold`, no error otherwise. -/
theorem peer_signature_reply (net : Net) (c : RemoteCosigners)
    (start : CosignerStartSessionRequest) (finish : CosignerEndSessionRequest)
    (pre post : List PollItem) (item : PollItem) (sig : Bytes)
    (hpoll : net.Poll = .ok (pre ++ item :: post))
    (hrecv : ∀ i ∈ pre ++ item :: post, i.pollin = true → i.err = none → i.reply ≠ [])
    (hsecond : ∀ i ∈ pre ++ item :: post,
      i.isPeerSignature c.SessionClients = true → 2 ≤ i.reply.length)
    (hitem : item.isPeerSignature c.SessionClients = true)
    (hsig : item.reply[1]? = some sig)
    (hpost : ∀ i ∈ post, i.isPeerSignature c.SessionClients = false) :
    (∃ c1 res, res.MaybeSig = some sig ∧
        c.StartSession net start
          = .ok (c1, res,
              if sig.length = 64 then some "signed before"
              else if collectedReplies c.SessionClients (pre ++ item :: post) + 1
                  < c.Threshold then
                some "not enough messages collected"
              else none)) ∧
      (∃ c2 res, res.MaybeSig = some sig ∧
        c.EndSession net finish
          = .ok (c2, res,
              if sig.length = 64 then some "signed before"
              else if collectedReplies c.SessionClients (pre ++ item :: post) + 1
                  < c.Threshold then
                some "not enough messages collected"
              else none)) := by
  obtain ⟨st1, h1, hs1, hc1⟩ := collectLoop_signature c.SessionClients item post sig hitem hsig
    hpost pre
    ⟨sendToAll net c.SessionClients c.ActiveClients (startSessionFrames start), none, 1, []⟩
    hrecv hsecond
  obtain ⟨st2, h2, hs2, hc2⟩ := collectLoop_signature c.SessionClients item post sig hitem hsig
    hpost pre
    ⟨sendToAll net c.SessionClients c.ActiveClients (endSessionFrames finish), none, 1, []⟩
    hrecv hsecond
  simp only [] at hc1 hc2
  have e1 : st1.collected
      = collectedReplies c.SessionClients (pre ++ item :: post) + 1 := by omega
  have e2 : st2.collected
      = collectedReplies c.SessionClients (pre ++ item :: post) + 1 := by omega
  refine ⟨⟨{ c with ActiveClients := st1.ActiveClients }, ⟨st1.msgsOut, st1.MaybeSig⟩, hs1, ?_⟩,
    ⟨{ c with ActiveClients := st2.ActiveClients }, ⟨st2.msgsOut, st2.MaybeSig⟩, hs2, ?_⟩⟩
  · unfold RemoteCosigners.StartSession
    simp only [hpoll, h1, hs1, e1, Option.getD_some]
    split_ifs <;> rfl
  · unfold RemoteCosigners.EndSession
    simp only [hpoll, h2, hs2, e2, Option.getD_some]
    split_ifs <;> rfl

/-- C13 amended, at concrete inputs, threshold `2`.  After a failed receive
from socket `3`, socket `1` replies `signature` with a 64-byte second frame:
`StartSession` sets `MaybeSig` to it and fails with `signed before`.  When the
second frame has three bytes and nothing is collected, `EndSession` sets
`MaybeSig` to it and the count check fails. -/
theorem peer_signature_reply_witness :
    sampleSignatureReply.isPeerSignature samplePeersInSession.SessionClients = true ∧
      sampleSignatureReply.reply[1]? = some (List.replicate 64 9) ∧
      sampleShortSignatureReply.reply[1]? = some [1, 2, 3] ∧
      (∃ c1 res, res.MaybeSig = some (List.replicate 64 9) ∧
        samplePeersInSession.StartSession
            (sampleNet ([sampleFailedReceive] ++ sampleSignatureReply :: []))
            ⟨1, sampleVote, [2, 3, 1]⟩
          = .ok (c1, res,
              if (List.replicate 64 9).length = 64 then some "signed before"
              else if collectedReplies samplePeersInSession.SessionClients
                  ([sampleFailedReceive] ++ sampleSignatureReply :: []) + 1
                  < samplePeersInSession.Threshold then
                some "not enough messages collected"
              else none)) ∧
      (∃ c2 res, res.MaybeSig = some [1, 2, 3] ∧
        samplePeersInSession.EndSession
            (sampleNet ([sampleFailedReceive] ++ sampleShortSignatureReply :: []))
            ⟨1, sampleVote, [2, 3, 1], [[0]]⟩
          = .ok (c2, res,
              if ([1, 2, 3] : Bytes).length = 64 then some "signed before"
              else if collectedReplies samplePeersInSession.SessionClients
                  ([sampleFailedReceive] ++ sampleShortSignatureReply :: []) + 1
                  < samplePeersInSession.Threshold then
                some "not enough messages collected"
              else none)) :=
  ⟨rfl, rfl, rfl,
    (peer_signature_reply
      (sampleNet ([sampleFailedReceive] ++ sampleSignatureReply :: []))
      samplePeersInSession ⟨1, sampleVote, [2, 3, 1]⟩ ⟨1, sampleVote, [2, 3, 1], [[0]]⟩
      [sampleFailedReceive] [] sampleSignatureReply (List.replicate 64 9) rfl (by decide)
      (by decide) rfl rfl (fun _ h => by simp at h)).1,
    (peer_signature_reply
      (sampleNet ([sampleFailedReceive] ++ sampleShortSignatureReply :: []))
      samplePeersInSession ⟨1, sampleVote, [2, 3, 1]⟩ ⟨1, sampleVote, [2, 3, 1], [[0]]⟩
      [sampleFailedReceive] [] sampleShortSignatureReply [1, 2, 3] rfl (by decide) (by decide)
      rfl rfl (fun _ h => by simp at h)).2⟩

/-! ## Signing a block -/

/-- C11, evaluated at the failing input: a first-boot validator with threshold
`2` signs the sample vote; the local `StartSession` opens a session, and in
the peers' `StartSession` round one session peer replies `signature` with a
three-byte second frame.  `signBlock` returns that frame as the signature with
a nil error: the signature is 3 bytes long, not 64. -/
theorem signBlock_returns_short_peer_signature :
    (ThresholdValidator.signBlock sampleCodec sampleEngine id 5 5 5
        (sampleNet [sampleShortSignatureReply]) (sampleNet []) (sampleNet [])
        ⟨2, sampleCosigner zeroSignState [], samplePeers⟩
        ⟨10, 0, 1, sampleVote, 777⟩).map (fun r => r.2)
      = .ok (some [1, 2, 3], 777, none) ∧
      ([1, 2, 3] : Bytes).length ≠ 64 := by
  refine ⟨rfl, by decide⟩

end Signer
